import Mathlib

/-!
Verification development for the card search / deck sampling core of the
scryfallQueryGenerator repository.  The search engine is a shallow embedding
of `CardSearchIndex` (field indices, full text index, `search` and its
helper evaluators) and the deck sampler an embedding of `DeckGenerator`
(`validateConstraints`, `isCardValid`, `addCardToDeck`,
`generateRandomDeck`, `generateCommanderDeck`, text export).

Modelling conventions:
* JavaScript `Set` objects are duplicate-free `List String` / `List Char`
  values maintained in insertion order via `insertId`.
* JavaScript `Map` objects and plain objects used as dictionaries are
  association lists (`List (String × α)`) with `Map.set` / property
  assignment semantics (`aset`: overwrite in place, else append).
* `Math.random()`-derived quantities are drawn from an explicit stream
  (`Rng`).  `Math.floor(Math.random() * n)` is modelled as `v % n` and
  `Math.ceil(Math.random() * m)` as `v % (m + 1)`; in both cases the
  modelled range is exactly the set of values the JavaScript expression
  can produce.
* Optional / possibly-`undefined` fields are `Option` values.  String
  falsiness (`if (query.text)`) is modelled by treating `some ""` as
  absent where the source tests truthiness (`strOpt`).
* `power` / `toughness` are stored pre-parsed: `none` covers both an
  absent value and a non-numeric one (`parseFloat` yielding `NaN`), which
  the source skips identically.
* Indices that `search` never reads (color, colorIdentity, manaValue,
  power, toughness field indices) are built by the source but omitted
  here, as are statistics fields no claim mentions.
-/

namespace SQG

/-- JavaScript `Set.add`: append if not already present (insertion order). -/
def insertId {α : Type} [DecidableEq α] (s : List α) (x : α) : List α :=
  if x ∈ s then s else s ++ [x]

/-- `new Set(list)`: deduplicate keeping first occurrences. -/
def jsSetOf {α : Type} [DecidableEq α] (l : List α) : List α :=
  l.foldl insertId []

/-- `CardSearchIndex.intersect`: `new Set([...setA].filter(x => setB.has(x)))`. -/
def jsIntersect (a b : List String) : List String :=
  jsSetOf (a.filter (fun x => b.contains x))

/-- `CardSearchIndex.union`: `new Set([...setA, ...setB])`. -/
def jsUnion (a b : List String) : List String :=
  jsSetOf (a ++ b)

/-- Association list lookup (first match), modelling `Map.get` / property read. -/
def alookup {α : Type} : List (String × α) → String → Option α
  | [], _ => none
  | (k, v) :: rest, key => if k = key then some v else alookup rest key

/-- Association list write, modelling `Map.set` / property assignment:
overwrite in place, otherwise append. -/
def aset {α : Type} : List (String × α) → String → α → List (String × α)
  | [], k, v => [(k, v)]
  | (k0, v0) :: rest, k, v =>
    if k0 = k then (k0, v) :: rest else (k0, v0) :: aset rest k v

/-- Whether `p` is a prefix of `s` (boolean, for substring tests). -/
def hasPre : List Char → List Char → Bool
  | [], _ => true
  | _ :: _, [] => false
  | a :: as, b :: bs => a = b && hasPre as bs

/-- Boolean substring test over char lists. -/
def hasSub (sub : List Char) : List Char → Bool
  | [] => hasPre sub []
  | c :: rest => hasPre sub (c :: rest) || hasSub sub rest

/-- JavaScript `String.prototype.includes`. -/
def containsSub (s sub : String) : Bool :=
  hasSub sub.toList s.toList

/-- `String.prototype.toLowerCase` (per-character lowering, kept
structural so that terms evaluate inside the kernel). -/
def lowerStr (s : String) : String := String.mk (s.toList.map Char.toLower)

/-- Split a character list at every whitespace character (separator
characters dropped, empty segments kept), accumulator-style. -/
def splitWSAux : List Char → List Char → List String
  | [], cur => [String.mk cur.reverse]
  | c :: rest, cur =>
    if c.isWhitespace then String.mk cur.reverse :: splitWSAux rest []
    else splitWSAux rest (c :: cur)

/-- `CardSearchIndex.tokenize`: lowercase, replace every character outside
word characters, whitespace, `+`, `/`, `-` with a space, split on
whitespace, drop tokens of length ≤ 1. -/
def tokenize (text : String) : List String :=
  let cleaned := (lowerStr text).toList.map (fun c =>
    if c.isAlphanum || c = '_' || c.isWhitespace || c = '+' || c = '/' || c = '-'
    then c else ' ')
  (splitWSAux cleaned []).filter (fun t => t.length > 1)

/-- One normalized card record (the data contract consumed by
`CardSearchIndex.indexCard`; field names follow the source). -/
structure Card where
  id : String
  oracle_id : String := ""
  name : String := ""
  /-- `card.type_line` (`none` = absent). -/
  type_line : Option String := none
  /-- `card.parsed_types.types`. -/
  types : List String := []
  /-- `card.parsed_types.supertypes`. -/
  supertypes : List String := []
  /-- `card.parsed_types.subtypes`. -/
  subtypes : List String := []
  colors : List Char := []
  color_identity : List Char := []
  /-- `card.rarity` (`""` = falsy/absent). -/
  rarity : String := ""
  /-- `card.set` (`""` = falsy/absent). -/
  setCode : String := ""
  keywords : List String := []
  /-- `card.legal_formats` (`none` = absent object). -/
  legal_formats : Option (List (String × Bool)) := none
  /-- `card.artist` (`""` = falsy/absent). -/
  artist : String := ""
  /-- `card.cmc` (`none` = absent). -/
  cmc : Option Int := none
  /-- `parseFloat(card.power)`: `none` = absent or non-numeric. -/
  power : Option Int := none
  /-- `parseFloat(card.toughness)`: `none` = absent or non-numeric. -/
  toughness : Option Int := none
  /-- numeric timestamp of `card.released_at` (`new Date(x || 0)`). -/
  released_at : Option Int := none
  /-- `card.full_oracle_text || card.oracle_text` (`""` = absent). -/
  full_oracle_text : String := ""
  deriving Repr, DecidableEq

/-- One inverted index: value → set of card ids. -/
abbrev FieldIndex := List (String × List String)

/-- `CardSearchIndex.addToFieldIndex` on a single field map. -/
def fiAdd : FieldIndex → String → String → FieldIndex
  | [], v, id => [(v, [id])]
  | (k, ids) :: rest, v, id =>
    if k = v then (k, insertId ids id) :: rest else (k, ids) :: fiAdd rest v id

/-- The search index state (only the indices `search` actually reads). -/
structure CardSearchIndex where
  cards : List (String × Card) := []
  textIndex : FieldIndex := []
  nameIdx : FieldIndex := []
  typeIdx : FieldIndex := []
  supertypeIdx : FieldIndex := []
  subtypeIdx : FieldIndex := []
  rarityIdx : FieldIndex := []
  setIdx : FieldIndex := []
  keywordIdx : FieldIndex := []
  formatIdx : FieldIndex := []
  artistIdx : FieldIndex := []
  deriving Repr

/-- `CardSearchIndex.indexCard` (restricted to the indices read by `search`). -/
def indexCard (idx : CardSearchIndex) (card : Card) : CardSearchIndex :=
  let idx := { idx with cards := aset idx.cards card.id card }
  let idx := { idx with nameIdx := (tokenize card.name).foldl (fun fi t => fiAdd fi t card.id) idx.nameIdx }
  let idx := { idx with typeIdx := card.types.foldl (fun fi t => fiAdd fi t card.id) idx.typeIdx }
  let idx := { idx with supertypeIdx := card.supertypes.foldl (fun fi t => fiAdd fi t card.id) idx.supertypeIdx }
  let idx := { idx with subtypeIdx := card.subtypes.foldl (fun fi t => fiAdd fi t card.id) idx.subtypeIdx }
  let idx := { idx with rarityIdx := if card.rarity ≠ "" then fiAdd idx.rarityIdx card.rarity card.id else idx.rarityIdx }
  let idx := { idx with setIdx := if card.setCode ≠ "" then fiAdd idx.setIdx (lowerStr card.setCode) card.id else idx.setIdx }
  let idx := { idx with keywordIdx := card.keywords.foldl (fun (fi : FieldIndex) (kw : String) => fiAdd fi (lowerStr kw) card.id) idx.keywordIdx }
  let idx := { idx with formatIdx := ((card.legal_formats.getD []).filter (fun (p : String × Bool) => p.2)).foldl (fun (fi : FieldIndex) (p : String × Bool) => fiAdd fi p.1 card.id) idx.formatIdx }
  let idx := { idx with artistIdx := if card.artist ≠ "" then fiAdd idx.artistIdx (lowerStr card.artist) card.id else idx.artistIdx }
  let idx := { idx with textIndex := (tokenize card.full_oracle_text).foldl (fun fi t => fiAdd fi t card.id) idx.textIndex }
  idx

/-- `CardSearchIndex.buildIndex`: clear all state, then index each card. -/
def buildIndex (cards : List Card) : CardSearchIndex :=
  cards.foldl indexCard {}

/-- `CardSearchIndex.getFieldIds`: `this.fieldIndices[field]?.get(value) || null`
(index entry sets are non-empty by construction, so truthiness = presence). -/
def getFieldIds (idx : CardSearchIndex) (field value : String) : Option (List String) :=
  let fi : FieldIndex :=
    if field = "name" then idx.nameIdx
    else if field = "type" then idx.typeIdx
    else if field = "supertype" then idx.supertypeIdx
    else if field = "subtype" then idx.subtypeIdx
    else if field = "rarity" then idx.rarityIdx
    else if field = "set" then idx.setIdx
    else if field = "keyword" then idx.keywordIdx
    else if field = "format" then idx.formatIdx
    else if field = "artist" then idx.artistIdx
    else []
  alookup fi value

/-- `CardSearchIndex.searchText`. -/
def searchText (idx : CardSearchIndex) (text : String) : List String :=
  let tokens := tokenize text
  if tokens = [] then []
  else
    let isOr := containsSub (lowerStr text) " or "
    let res := tokens.foldl (fun (acc : Option (List String)) token =>
      if token = "or" ∨ token = "and" then acc
      else
        let tokenIds := (alookup idx.textIndex token).getD []
        match acc with
        | none => some (jsSetOf tokenIds)
        | some ids => some (if isOr then jsUnion ids tokenIds else jsIntersect ids tokenIds))
      none
    res.getD []

/-- `CardSearchIndex.searchField`: tokenized AND over one field index. -/
def searchField (idx : CardSearchIndex) (field value : String) : List String :=
  let tokens := tokenize value
  if tokens = [] then []
  else
    let res := tokens.foldl (fun (acc : Option (List String)) token =>
      let tokenIds := (getFieldIds idx field token).getD []
      match acc with
      | none => some (jsSetOf tokenIds)
      | some ids => some (jsIntersect ids tokenIds))
      none
    res.getD []

/-- The per-type fallback chain of the type filter (first non-null among
the type, subtype and supertype indices, else the empty set). -/
def typeFallbackIds (idx : CardSearchIndex) (t : String) : Option (List String) :=
  match getFieldIds idx "type" (lowerStr t) with
  | some s => some s
  | none =>
    match getFieldIds idx "subtype" (lowerStr t) with
    | some s => some s
    | none => getFieldIds idx "supertype" (lowerStr t)

/-- The type-filter portion of `CardSearchIndex.search`: for each requested
type, `getFieldIds('type', t) || getFieldIds('subtype', t) ||
getFieldIds('supertype', t)` (first non-null), unioned across the
requested types. -/
def searchTypeIds (idx : CardSearchIndex) (types : List String) : List String :=
  types.foldl (fun typeIds t =>
    match typeFallbackIds idx t with
    | some s => jsUnion typeIds s
    | none => typeIds) []

/-- `CardSearchIndex.setsEqual` (on deduplicated char lists). -/
def setsEqual (a b : List Char) : Bool :=
  a.length == b.length && a.all (fun x => b.contains x)

/-- `CardSearchIndex.isSubset`. -/
def isSubsetB (a b : List Char) : Bool :=
  a.all (fun x => b.contains x)

/-- `CardSearchIndex.isProperSubset`. -/
def isProperSubsetB (a b : List Char) : Bool :=
  isSubsetB a b && a.length < b.length

/-- The card side of the color comparison: the card's colors (or color
identity), lowercased and deduplicated, with a colorless card coerced to
the singleton set containing `c`. -/
def cardColorSet (card : Card) (field : String) : List Char :=
  let base := (if field = "colorIdentity" then card.color_identity else card.colors).map Char.toLower
  let s := jsSetOf base
  if s.length = 0 then insertId s 'c' else s

/-- The target side: the query string lowercased, restricted to the
alphabet `wubrgc`, deduplicated. -/
def targetColorSet (colors : String) : List Char :=
  jsSetOf ((lowerStr colors).toList.filter (fun c => "wubrgc".toList.contains c))

/-- The operator dispatch inside `CardSearchIndex.searchColors`. -/
def matchesColorOp (operator : String) (cardColors targetColors : List Char) : Bool :=
  if operator = "=" then setsEqual cardColors targetColors
  else if operator = "<=" then isSubsetB cardColors targetColors
  else if operator = ">=" then isSubsetB targetColors cardColors
  else if operator = "<" then isProperSubsetB cardColors targetColors
  else if operator = ">" then isProperSubsetB targetColors cardColors
  else false

/-- `CardSearchIndex.searchColors`: a full scan of `this.cards`. -/
def searchColors (idx : CardSearchIndex) (colors operator field : String) : List String :=
  idx.cards.foldl (fun acc p =>
    if matchesColorOp operator (cardColorSet p.2 field) (targetColorSet colors)
    then insertId acc p.1 else acc) []

/-- `CardSearchIndex.searchNumeric`: a full scan with a numeric comparator;
cards whose value is absent / non-numeric are skipped. -/
def searchNumeric (idx : CardSearchIndex) (field : String) (value : Int)
    (operator : String) : List String :=
  idx.cards.foldl (fun acc p =>
    let cardValue : Option Int :=
      if field = "manaValue" then p.2.cmc
      else if field = "power" then p.2.power
      else if field = "toughness" then p.2.toughness
      else none
    match cardValue with
    | none => acc
    | some v =>
      let m : Bool :=
        if operator = "=" then v == value
        else if operator = "<" then v < value
        else if operator = ">" then v > value
        else if operator = "<=" then v ≤ value
        else if operator = ">=" then v ≥ value
        else false
      if m then insertId acc p.1 else acc) []

/-- The fixed rarity order. -/
def rarityOrder : List String := ["common", "uncommon", "rare", "mythic"]

/-- `Array.prototype.indexOf` returning `none` for `-1`. -/
def idxOfStr : List String → String → Option Nat
  | [], _ => none
  | x :: xs, s => if x = s then some 0 else (idxOfStr xs s).map (fun n => n + 1)

/-- The operator dispatch inside `CardSearchIndex.searchRarity`. -/
def rarityOpMatches (operator : String) (cardIndex targetIndex : Nat) : Bool :=
  if operator = "=" then cardIndex == targetIndex
  else if operator = "<" then cardIndex < targetIndex
  else if operator = ">" then cardIndex > targetIndex
  else if operator = "<=" then cardIndex ≤ targetIndex
  else if operator = ">=" then cardIndex ≥ targetIndex
  else false

/-- Whether one card matches the ordinal rarity comparison (cards with a
rarity outside the fixed order are skipped, i.e. never match). -/
def rarityCardMatches (operator : String) (targetIndex : Nat) (card : Card) : Bool :=
  match idxOfStr rarityOrder card.rarity with
  | none => false
  | some cardIndex => rarityOpMatches operator cardIndex targetIndex

/-- `CardSearchIndex.searchRarity`: ordinal comparison over `rarityOrder`,
falling back to an exact index lookup for an unrecognized rarity. -/
def searchRarity (idx : CardSearchIndex) (rarity operator : String) : List String :=
  match idxOfStr rarityOrder (lowerStr rarity) with
  | none => (getFieldIds idx "rarity" (lowerStr rarity)).getD []
  | some targetIndex =>
    idx.cards.foldl (fun acc p =>
      if rarityCardMatches operator targetIndex p.2 then insertId acc p.1 else acc) []

/-- Three-way string comparison (modelling `localeCompare` as code-point
order). -/
def strCmp (a b : String) : Int :=
  if a < b then -1 else if b < a then 1 else 0

/-- index of a rarity for sorting (`indexOf`, `-1` when absent). -/
def rarityNum (r : String) : Int :=
  match idxOfStr rarityOrder r with
  | some n => (n : Int)
  | none => -1

/-- The comparator of `CardSearchIndex.sortResults` (ascending direction). -/
def sortCmp (sortBy : String) (a b : Card) : Int :=
  if sortBy = "name" then strCmp a.name b.name
  else if sortBy = "manaValue" ∨ sortBy = "cmc" then (a.cmc.getD 0) - (b.cmc.getD 0)
  else if sortBy = "rarity" then rarityNum a.rarity - rarityNum b.rarity
  else if sortBy = "released" then (a.released_at.getD 0) - (b.released_at.getD 0)
  else if sortBy = "color" then strCmp (String.mk a.colors) (String.mk b.colors)
  else 0

/-- `CardSearchIndex.sortResults`: a stable sort by the comparator
(JavaScript `Array.prototype.sort` is required to be stable). -/
def sortResults (results : List Card) (sortBy order : String) : List Card :=
  let multiplier : Int := if order = "desc" then -1 else 1
  results.mergeSort (fun a b => multiplier * sortCmp sortBy a b ≤ 0)

/-- The query object accepted by `search` (absent fields are `none`; a
`string | string[]` field is given as its array form, `some []` being a
present-but-empty array, which is truthy in JavaScript). -/
structure Query where
  text : Option String := none
  name : Option String := none
  type : Option (List String) := none
  colors : Option String := none
  colorOperator : Option String := none
  colorIdentity : Option String := none
  colorIdentityOperator : Option String := none
  manaValue : Option Int := none
  manaValueOperator : Option String := none
  power : Option Int := none
  powerOperator : Option String := none
  toughness : Option Int := none
  toughnessOperator : Option String := none
  rarity : Option String := none
  rarityOperator : Option String := none
  set : Option String := none
  format : Option String := none
  keyword : Option (List String) := none
  artist : Option String := none
  sortBy : Option String := none
  sortOrder : Option String := none
  limit : Option Nat := none
  offset : Option Nat := none
  deriving Repr

/-- JavaScript truthiness of an optional string (`some ""` is falsy). -/
def strOpt (o : Option String) : Option String :=
  match o with
  | some s => if s = "" then none else some s
  | none => none

/-- `value || dflt` for an optional string. -/
def orDefault (o : Option String) (dflt : String) : String :=
  match strOpt o with
  | some s => s
  | none => dflt

/-- Fold one candidate id-set into the running result:
`resultIds ? intersect(resultIds, ids) : ids`. -/
def combineIds (resultIds : Option (List String)) (ids : List String) : Option (List String) :=
  match resultIds with
  | some r => some (jsIntersect r ids)
  | none => some ids

/-- Text-search block of `search`. -/
def stepText (idx : CardSearchIndex) (q : Query) (acc : Option (List String)) : Option (List String) :=
  match strOpt q.text with
  | some t => some (searchText idx t)
  | none => acc

/-- Name-filter block of `search`. -/
def stepName (idx : CardSearchIndex) (q : Query) (acc : Option (List String)) : Option (List String) :=
  match strOpt q.name with
  | some n => combineIds acc (searchField idx "name" n)
  | none => acc

/-- Type-filter block of `search`. -/
def stepType (idx : CardSearchIndex) (q : Query) (acc : Option (List String)) : Option (List String) :=
  match q.type with
  | some ts => combineIds acc (searchTypeIds idx ts)
  | none => acc

/-- Color-filter block of `search`. -/
def stepColors (idx : CardSearchIndex) (q : Query) (acc : Option (List String)) : Option (List String) :=
  match strOpt q.colors with
  | some cl => combineIds acc (searchColors idx cl (orDefault q.colorOperator "=") "color")
  | none => acc

/-- Color-identity block of `search`. -/
def stepColorIdentity (idx : CardSearchIndex) (q : Query) (acc : Option (List String)) : Option (List String) :=
  match strOpt q.colorIdentity with
  | some ci => combineIds acc (searchColors idx ci (orDefault q.colorIdentityOperator "=") "colorIdentity")
  | none => acc

/-- Mana-value block of `search`. -/
def stepMana (idx : CardSearchIndex) (q : Query) (acc : Option (List String)) : Option (List String) :=
  match q.manaValue with
  | some mv => combineIds acc (searchNumeric idx "manaValue" mv (orDefault q.manaValueOperator "="))
  | none => acc

/-- Power block of `search`. -/
def stepPower (idx : CardSearchIndex) (q : Query) (acc : Option (List String)) : Option (List String) :=
  match q.power with
  | some pw => combineIds acc (searchNumeric idx "power" pw (orDefault q.powerOperator "="))
  | none => acc

/-- Toughness block of `search`. -/
def stepToughness (idx : CardSearchIndex) (q : Query) (acc : Option (List String)) : Option (List String) :=
  match q.toughness with
  | some tg => combineIds acc (searchNumeric idx "toughness" tg (orDefault q.toughnessOperator "="))
  | none => acc

/-- Rarity block of `search`. -/
def stepRarity (idx : CardSearchIndex) (q : Query) (acc : Option (List String)) : Option (List String) :=
  match strOpt q.rarity with
  | some ra => combineIds acc (searchRarity idx ra (orDefault q.rarityOperator "="))
  | none => acc

/-- Set block of `search`: a missing index entry empties the running
result (`resultIds = new Set()`). -/
def stepSet (idx : CardSearchIndex) (q : Query) (acc : Option (List String)) : Option (List String) :=
  match strOpt q.set with
  | some s =>
    match getFieldIds idx "set" (lowerStr s) with
    | some setIds => combineIds acc setIds
    | none => some []
  | none => acc

/-- Format block of `search` (same missing-entry behavior as `stepSet`). -/
def stepFormat (idx : CardSearchIndex) (q : Query) (acc : Option (List String)) : Option (List String) :=
  match strOpt q.format with
  | some f =>
    match getFieldIds idx "format" (lowerStr f) with
    | some formatIds => combineIds acc formatIds
    | none => some []
  | none => acc

/-- Keyword block of `search` (AND across requested keywords; a missing
entry empties the running result). -/
def stepKeyword (idx : CardSearchIndex) (q : Query) (acc : Option (List String)) : Option (List String) :=
  match q.keyword with
  | some kws =>
    kws.foldl (fun acc2 kw =>
      match getFieldIds idx "keyword" (lowerStr kw) with
      | some keyIds => combineIds acc2 keyIds
      | none => some []) acc
  | none => acc

/-- Artist block of `search`. -/
def stepArtist (idx : CardSearchIndex) (q : Query) (acc : Option (List String)) : Option (List String) :=
  match strOpt q.artist with
  | some a => combineIds acc (searchField idx "artist" (lowerStr a))
  | none => acc

/-- The filter cascade of `CardSearchIndex.search`, producing the final
candidate id-set (`none` = no filter applied at all); the blocks appear
in source order. -/
def searchIds (idx : CardSearchIndex) (q : Query) : Option (List String) :=
  stepArtist idx q (stepKeyword idx q (stepFormat idx q (stepSet idx q
    (stepRarity idx q (stepToughness idx q (stepPower idx q (stepMana idx q
      (stepColorIdentity idx q (stepColors idx q (stepType idx q
        (stepName idx q (stepText idx q none))))))))))))

/-- `CardSearchIndex.search`: evaluate the filters, materialize ids into
card records, optionally sort, then paginate (`slice` only when `limit`
is defined, with `offset || 0`). -/
def search (idx : CardSearchIndex) (q : Query) : List Card :=
  let resultIds := (searchIds idx q).getD (idx.cards.map (fun p => p.1))
  let results := resultIds.filterMap (fun id => alookup idx.cards id)
  let results := match strOpt q.sortBy with
    | some sb => sortResults results sb (orDefault q.sortOrder "asc")
    | none => results
  match q.limit with
  | some l => (results.drop (q.offset.getD 0)).take l
  | none => results

/-- `DeckGenerator` format configuration defaults. -/
structure FormatConfig where
  deckSize : Nat
  maxCopies : Nat
  minLands : Nat
  maxLands : Nat
  hasCommander : Bool := false
  deriving Repr

/-- The static `formatConfigs` table. -/
def formatConfigs : List (String × FormatConfig) :=
  [ ("standard", { deckSize := 60, maxCopies := 4, minLands := 20, maxLands := 26 }),
    ("modern",   { deckSize := 60, maxCopies := 4, minLands := 20, maxLands := 26 }),
    ("pioneer",  { deckSize := 60, maxCopies := 4, minLands := 20, maxLands := 26 }),
    ("legacy",   { deckSize := 60, maxCopies := 4, minLands := 20, maxLands := 26 }),
    ("vintage",  { deckSize := 60, maxCopies := 4, minLands := 20, maxLands := 26 }),
    ("commander", { deckSize := 100, maxCopies := 1, minLands := 35, maxLands := 40, hasCommander := true }),
    ("brawl",    { deckSize := 60, maxCopies := 1, minLands := 22, maxLands := 26, hasCommander := true }),
    ("pauper",   { deckSize := 60, maxCopies := 4, minLands := 20, maxLands := 26 }),
    ("limited",  { deckSize := 40, maxCopies := 99, minLands := 16, maxLands := 18 }) ]

/-- `DeckGenerator.getFormatConfig`: table lookup with `standard` fallback. -/
def getFormatConfig (format : String) : FormatConfig :=
  (alookup formatConfigs (lowerStr format)).getD
    { deckSize := 60, maxCopies := 4, minLands := 20, maxLands := 26 }

/-- The caller-supplied constraints object (absent fields are `none`;
`bannedCards` / `mustInclude` default to `[]` as with `|| []`; the
creature/spell/curve fields the sampler never reads are omitted). -/
structure ConstraintsInput where
  format : Option String := none
  deckSize : Option Nat := none
  maxCopies : Option Nat := none
  minLands : Option Nat := none
  maxLands : Option Nat := none
  hasCommander : Option Bool := none
  commander : Option String := none
  colorIdentity : Option String := none
  maxManaValue : Option Int := none
  bannedCards : List String := []
  mustInclude : List String := []
  deriving Repr

/-- The fully populated constraints produced by `validateConstraints`. -/
structure Constraints where
  format : String
  deckSize : Nat
  maxCopies : Nat
  minLands : Nat
  maxLands : Nat
  hasCommander : Bool
  commander : Option String
  colorIdentity : Option String
  maxManaValue : Option Int
  bannedCards : List String
  mustInclude : List String
  deriving Repr

/-- `DeckGenerator.validateConstraints`: fill every optional field from the
format defaults (`deckSize` uses `||`, so `0` also falls back; the other
numeric fields use `??`). -/
def validateConstraints (c : ConstraintsInput) : Constraints :=
  let format := orDefault c.format "standard"
  let cfg := getFormatConfig format
  { format := format
    deckSize := match c.deckSize with
      | some n => if n = 0 then cfg.deckSize else n
      | none => cfg.deckSize
    maxCopies := c.maxCopies.getD cfg.maxCopies
    minLands := c.minLands.getD cfg.minLands
    maxLands := c.maxLands.getD cfg.maxLands
    hasCommander := c.hasCommander.getD cfg.hasCommander
    commander := strOpt c.commander
    colorIdentity := strOpt c.colorIdentity
    maxManaValue := c.maxManaValue
    bannedCards := c.bannedCards
    mustInclude := c.mustInclude }

/-- `card.type_line?.includes('Basic') && card.type_line?.includes('Land')`. -/
def isBasicLand (card : Card) : Bool :=
  match card.type_line with
  | none => false
  | some tl => containsSub tl "Basic" && containsSub tl "Land"

/-- `DeckGenerator.categorizeCard`: first matching primary type, in the
fixed priority order, else `other`. -/
def categorizeCard (card : Card) : String :=
  let types := card.types
  if types.contains "land" then "land"
  else if types.contains "creature" then "creature"
  else if types.contains "planeswalker" then "planeswalker"
  else if types.contains "instant" then "instant"
  else if types.contains "sorcery" then "sorcery"
  else if types.contains "enchantment" then "enchantment"
  else if types.contains "artifact" then "artifact"
  else if types.contains "battle" then "battle"
  else "other"

/-- The mutable per-generation bookkeeping (`currentDeck` in the source). -/
structure DeckState where
  cardCounts : List (String × Nat) := []
  byCategory : List (String × Nat) := []
  totalManaValue : Int := 0
  nonLandCount : Nat := 0
  deriving Repr

/-- One deck line: a card reference plus a copy count. -/
structure DeckEntry where
  card : Card
  count : Nat
  isCommander : Bool := false
  isSideboard : Bool := false
  deriving Repr, DecidableEq

/-- `DeckGenerator.isCardValid`: banned list, format legality (only when the
card carries legality data), commander color-identity restriction, the
copy cap (basic lands exempt), and the optional mana-value ceiling. -/
def isCardValid (card : Card) (cons : Constraints) (st : DeckState) : Bool :=
  if cons.bannedCards.contains card.name then false
  else if (match card.legal_formats with
           | some lf => !((alookup lf cons.format).getD false)
           | none => false) then false
  else if (match cons.colorIdentity, cons.hasCommander with
           | some ci, true =>
             let allowed := jsSetOf (lowerStr ci).toList
             (card.color_identity.map Char.toLower).any
               (fun color => !(allowed.contains color) && color ≠ 'c')
           | _, _ => false) then false
  else
    let cardCount := (alookup st.cardCounts card.name).getD 0
    if !(isBasicLand card) && cardCount ≥ cons.maxCopies then false
    else match cons.maxManaValue, card.cmc with
      | some m, some v => !(v > m)
      | _, _ => true

/-- Explicit source of randomness: the stream of draws the source obtains
from `Math.random()`. -/
structure Rng where
  f : Nat → Nat
  pos : Nat := 0

/-- Take the next raw draw. -/
def draw (r : Rng) : Nat × Rng :=
  (r.f r.pos, { r with pos := r.pos + 1 })

/-- `Math.floor(Math.random() * n)`: one draw, reduced into `[0, n)`. -/
def randBelow (r : Rng) (n : Nat) : Nat × Rng :=
  let (v, r2) := draw r
  (if n = 0 then 0 else v % n, r2)

/-- Swap two positions of a list (no-op when out of bounds), for
Fisher-Yates. -/
def swapL {α : Type} (l : List α) (i j : Nat) : List α :=
  match l.get? i, l.get? j with
  | some a, some b => (l.set i b).set j a
  | _, _ => l

/-- The Fisher-Yates loop of `DeckGenerator.shuffle`: indices `i+1` down
to `1`, each swapped with a random position `j ≤ i+1`. -/
def shuffleAux {α : Type} : Nat → List α → Rng → List α × Rng
  | 0, l, r => (l, r)
  | i + 1, l, r =>
    let (j, r2) := randBelow r (i + 2)
    shuffleAux i (swapL l (i + 1) j) r2

/-- `DeckGenerator.shuffle`. -/
def shuffle {α : Type} (r : Rng) (l : List α) : List α × Rng :=
  shuffleAux (l.length - 1) l r

/-- Find the first deck entry whose card id matches and add copies to it
(`deck.find(e => e.card.id === card.id)` followed by mutation). -/
def updateFirstEntry : List DeckEntry → String → Nat → List DeckEntry
  | [], _, _ => []
  | e :: rest, cid, copies =>
    if e.card.id = cid then { e with count := e.count + copies } :: rest
    else e :: updateFirstEntry rest cid copies

/-- Whether some deck entry carries the given card id. -/
def hasEntryFor (deck : List DeckEntry) (cid : String) : Bool :=
  deck.any (fun e => e.card.id = cid)

/-- The copy count `addCardToDeck` decides on, together with the
advanced random stream: basic lands add `min(4, maxLands - currentLands)`
at once; non-singleton formats add `min(ceil(rand * maxCopies),
maxCopies - currentCount)`; otherwise exactly 1.  Clamped `Nat`
subtraction coincides with the JavaScript negative-result early return
(both yield a no-op add). -/
def copiesFor (card : Card) (st : DeckState) (cons : Constraints) (r : Rng) : Nat × Rng :=
  if isBasicLand card then
    (min 4 (cons.maxLands - (alookup st.byCategory "land").getD 0), r)
  else if cons.maxCopies > 1 then
    ((min ((draw r).1 % (cons.maxCopies + 1))
      (cons.maxCopies - (alookup st.cardCounts card.name).getD 0)), (draw r).2)
  else (1, r)

/-- `DeckGenerator.addCardToDeck`: decide a copy count, abort on a
non-positive count, otherwise merge into the existing entry for the same
card id (or append a new entry) and update the bookkeeping state. -/
def addCardToDeck (deck : List DeckEntry) (card : Card) (st : DeckState)
    (cons : Constraints) (r : Rng) : List DeckEntry × DeckState × Rng :=
  let category := categorizeCard card
  let copiesToAdd := (copiesFor card st cons r).1
  let r2 := (copiesFor card st cons r).2
  let currentCount := (alookup st.cardCounts card.name).getD 0
  if copiesToAdd = 0 then (deck, st, r2)
  else
    let deck2 :=
      if hasEntryFor deck card.id then updateFirstEntry deck card.id copiesToAdd
      else deck ++ [{ card := card, count := copiesToAdd }]
    let st2 := { st with
      cardCounts := aset st.cardCounts card.name (currentCount + copiesToAdd)
      byCategory := aset st.byCategory category ((alookup st.byCategory category).getD 0 + copiesToAdd) }
    let st3 :=
      if category ≠ "land" then
        { st2 with
          totalManaValue := st2.totalManaValue + (card.cmc.getD 0) * (copiesToAdd : Int)
          nonLandCount := st2.nonLandCount + copiesToAdd }
      else st2
    (deck2, st3, r2)

/-- The must-include seeding loop of `generateRandomDeck`: look each name
up in the non-land partition first, then the land partition, and add it
when `isCardValid` accepts it. -/
def seedMustInclude (cons : Constraints) (nonLands lands : List Card) :
    List String → List DeckEntry → DeckState → Rng → List DeckEntry × DeckState × Rng
  | [], deck, st, r => (deck, st, r)
  | nm :: rest, deck, st, r =>
    let card :=
      match nonLands.find? (fun c => lowerStr c.name = lowerStr nm) with
      | some c => some c
      | none => lands.find? (fun c => lowerStr c.name = lowerStr nm)
    let step :=
      match card with
      | some c => if isCardValid c cons st then addCardToDeck deck c st cons r else (deck, st, r)
      | none => (deck, st, r)
    seedMustInclude cons nonLands lands rest step.1 step.2.1 step.2.2

/-- The land break test `currentDeck.byCategory.land >= targetLands`
(`undefined >= n` is false, so an absent entry never breaks). -/
def landBreak (st : DeckState) (targetLands : Nat) : Bool :=
  match alookup st.byCategory "land" with
  | some v => v ≥ targetLands
  | none => false

/-- The land-adding loop of `generateRandomDeck`. -/
def addLands (cons : Constraints) (targetLands : Nat) :
    List Card → List DeckEntry → DeckState → Rng → List DeckEntry × DeckState × Rng
  | [], deck, st, r => (deck, st, r)
  | land :: rest, deck, st, r =>
    if landBreak st targetLands then (deck, st, r)
    else
      let step :=
        if isCardValid land cons st then addCardToDeck deck land st cons r else (deck, st, r)
      addLands cons targetLands rest step.1 step.2.1 step.2.2

/-- `deck.reduce((sum, e) => sum + e.count, 0)`. -/
def deckTotal (deck : List DeckEntry) : Nat :=
  (deck.map (fun e => e.count)).sum

/-- The non-land adding loop of `generateRandomDeck`. -/
def addNonLands (cons : Constraints) :
    List Card → List DeckEntry → DeckState → Rng → List DeckEntry × DeckState × Rng
  | [], deck, st, r => (deck, st, r)
  | card :: rest, deck, st, r =>
    if deckTotal deck ≥ cons.deckSize then (deck, st, r)
    else
      let step :=
        if isCardValid card cons st then addCardToDeck deck card st cons r else (deck, st, r)
      addNonLands cons rest step.1 step.2.1 step.2.2

/-- The statistics fields claims refer to (`uniqueCards`, `manaCurve`,
`colors` and the string-formatted `avgManaValue` are omitted: no claim
mentions them). -/
structure DeckStats where
  totalCards : Nat := 0
  byCategory : List (String × Nat) := []
  totalManaValue : Int := 0
  nonLandCount : Nat := 0
  deriving Repr

/-- `DeckGenerator.calculateDeckStats` (restricted to the fields above;
`entry.count || 1` coerces a zero count to 1). -/
def calculateDeckStats (deck : List DeckEntry) : DeckStats :=
  deck.foldl (fun stats e =>
    let count := if e.count = 0 then 1 else e.count
    let category := categorizeCard e.card
    let stats := { stats with
      totalCards := stats.totalCards + count
      byCategory := aset stats.byCategory category ((alookup stats.byCategory category).getD 0 + count) }
    if category ≠ "land" then
      { stats with
        totalManaValue := stats.totalManaValue + (e.card.cmc.getD 0) * (count : Int)
        nonLandCount := stats.nonLandCount + count }
    else stats) {}

/-- The value returned by `generateRandomDeck` / `generateCommanderDeck`. -/
structure GenDeck where
  deck : List DeckEntry
  constraints : Constraints
  stats : DeckStats
  valid : Bool
  commander : Option Card := none
  deriving Repr

/-- `DeckGenerator.generateRandomDeck`.  The `valid` flag models
`stats.totalCards >= deckSize * 0.9` as `10 * totalCards ≥ 9 * deckSize`
(the floating-point threshold differs from the rational one only at exact
boundary products, which no theorem here relies on). -/
def generateRandomDeck (candidates : List Card) (c : ConstraintsInput) (r : Rng) : GenDeck :=
  let cons := validateConstraints c
  let lands := candidates.filter (fun cd => categorizeCard cd = "land")
  let nonLands := candidates.filter (fun cd => categorizeCard cd ≠ "land")
  let s1 := seedMustInclude cons nonLands lands cons.mustInclude [] {} r
  let o := randBelow s1.2.2 (cons.maxLands - cons.minLands + 1)
  let targetLands := cons.minLands + o.1
  let sl := shuffle o.2 lands
  let s2 := addLands cons targetLands sl.1 s1.1 s1.2.1 sl.2
  let snl := shuffle s2.2.2 nonLands
  let s3 := addNonLands cons snl.1 s2.1 s2.2.1 snl.2
  let stats := calculateDeckStats s3.1
  { deck := s3.1
    constraints := cons
    stats := stats
    valid := decide (10 * stats.totalCards ≥ 9 * cons.deckSize) }

/-- The land partition of the candidate pool in `generateRandomDeck`. -/
def grdLands (candidates : List Card) : List Card :=
  candidates.filter (fun cd => categorizeCard cd = "land")

/-- The non-land partition of the candidate pool in `generateRandomDeck`. -/
def grdNonLands (candidates : List Card) : List Card :=
  candidates.filter (fun cd => categorizeCard cd ≠ "land")

/-- The deck, state and random stream after step 2 of `generateRandomDeck`
(the must-include seeding), starting from the empty deck. -/
def grdSeed (candidates : List Card) (c : ConstraintsInput) (r : Rng) :
    List DeckEntry × DeckState × Rng :=
  seedMustInclude (validateConstraints c) (grdNonLands candidates) (grdLands candidates)
    (validateConstraints c).mustInclude [] {} r

/-- The random draw deciding the land target in `generateRandomDeck`. -/
def grdDraw (candidates : List Card) (c : ConstraintsInput) (r : Rng) : Nat × Rng :=
  randBelow (grdSeed candidates c r).2.2
    ((validateConstraints c).maxLands - (validateConstraints c).minLands + 1)

/-- The land target `targetLands` chosen by `generateRandomDeck`. -/
def grdTargetLands (candidates : List Card) (c : ConstraintsInput) (r : Rng) : Nat :=
  (validateConstraints c).minLands + (grdDraw candidates c r).1

/-- The shuffled land pool fed to the land loop of `generateRandomDeck`. -/
def grdShuffledLands (candidates : List Card) (c : ConstraintsInput) (r : Rng) :
    List Card × Rng :=
  shuffle (grdDraw candidates c r).2 (grdLands candidates)

/-- The deck, state and random stream after step 3 of `generateRandomDeck`
(the land loop), continuing from the seeded deck. -/
def grdLandPhase (candidates : List Card) (c : ConstraintsInput) (r : Rng) :
    List DeckEntry × DeckState × Rng :=
  addLands (validateConstraints c) (grdTargetLands candidates c r)
    (grdShuffledLands candidates c r).1
    (grdSeed candidates c r).1 (grdSeed candidates c r).2.1
    (grdShuffledLands candidates c r).2

/-- The commander color identity string: `commander.color_identity?.join('') || 'c'`. -/
def commanderCI (commander : Card) : String :=
  if String.mk commander.color_identity = "" then "c" else String.mk commander.color_identity

/-- The candidate query issued by `generateCommanderDeck`. -/
def commanderQuery (commander : Card) : Query :=
  { format := some "commander", colorIdentity := some (commanderCI commander),
    colorIdentityOperator := some "<=" }

/-- The candidate pool of `generateCommanderDeck`: the query results with
the commander itself removed (matched by shared oracle id). -/
def commanderPool (idx : CardSearchIndex) (commander : Card) : List Card :=
  (search idx (commanderQuery commander)).filter (fun cd => cd.oracle_id ≠ commander.oracle_id)

/-- The forced constraints of `generateCommanderDeck` (the spread of the
caller's extra constraints, overridden by the commander-format ones). -/
def commanderCons (extra : ConstraintsInput) (commander : Card) : ConstraintsInput :=
  { extra with format := some "commander", colorIdentity := some (commanderCI commander), hasCommander := some true, commander := some commander.name, deckSize := some 99, maxCopies := some 1 }

/-- `DeckGenerator.generateCommanderDeck`: derive the color identity from
the commander (`join('') || 'c'`), force commander-format constraints,
query candidates legal in commander within that identity (`<=`), drop the
commander by oracle id, generate 99 cards, prepend the commander and
recompute statistics. -/
def generateCommanderDeck (idx : CardSearchIndex) (commander : Card)
    (extra : ConstraintsInput) (r : Rng) : GenDeck :=
  let res := generateRandomDeck (commanderPool idx commander) (commanderCons extra commander) r
  let newDeck : List DeckEntry := { card := commander, count := 1, isCommander := true } :: res.deck
  { res with commander := some commander, deck := newDeck, stats := calculateDeckStats newDeck }

/-- Category grouping of `exportToText`: a plain object keyed by category
in first-seen order, each holding its entries in deck order. -/
def pushCategory (acc : List (String × List DeckEntry)) (cat : String) (e : DeckEntry) :
    List (String × List DeckEntry) :=
  match alookup acc cat with
  | some es => aset acc cat (es ++ [e])
  | none => acc ++ [(cat, [e])]

/-- `byCategory` grouping loop of `exportToText`. -/
def groupByCategory (deck : List DeckEntry) : List (String × List DeckEntry) :=
  deck.foldl (fun acc e => pushCategory acc (categorizeCard e.card) e) []

/-- Decimal digit character. -/
def digitChar (n : Nat) : Char := Char.ofNat (48 + n)

/-- Fuel-driven decimal rendering helper (structural recursion so that
terms evaluate inside the kernel). -/
def natDigitsAux : Nat → Nat → List Char
  | 0, _ => []
  | fuel + 1, n =>
    if n < 10 then [digitChar n]
    else natDigitsAux fuel (n / 10) ++ [digitChar (n % 10)]

/-- Decimal rendering of a natural number (the template-literal rendering
of `entry.count`); `n + 1` units of fuel always suffice. -/
def natDigits (n : Nat) : List Char := natDigitsAux (n + 1) n

/-- The category header line
`'// ' + category.charAt(0).toUpperCase() + category.slice(1) + 's'`. -/
def categoryHeader (cat : String) : String :=
  match cat.toList with
  | [] => "// s"
  | c :: rest => "// " ++ String.mk (c.toUpper :: rest) ++ "s"

/-- One entry line `count + 'x ' + name`. -/
def entryLine (e : DeckEntry) : String :=
  String.mk (natDigits e.count) ++ "x " ++ e.card.name

/-- The line array built by `DeckGenerator.exportToText` (header, entry
lines, then a blank line per category); the export string joins these
with a newline. -/
def exportLines (deck : List DeckEntry) : List String :=
  (groupByCategory deck).foldl (fun lines p =>
    lines ++ [categoryHeader p.1] ++ p.2.map entryLine ++ [""]) []

/-- `lines.join('\n')`. -/
def joinLines : List String → String
  | [] => ""
  | [l] => l
  | l :: rest => l ++ "\n" ++ joinLines rest

/-- `DeckGenerator.exportToText` (also the `text` / default branch of
`exportDeck`). -/
def exportToText (deck : List DeckEntry) : String :=
  joinLines (exportLines deck)

/-- Split a string at newline characters (the inverse of joining lines). -/
def splitLinesAux : List Char → List Char → List String
  | [], cur => [String.mk cur.reverse]
  | c :: rest, cur =>
    if c = '\n' then String.mk cur.reverse :: splitLinesAux rest []
    else splitLinesAux rest (c :: cur)

/-- All lines of a rendered export. -/
def splitLines (s : String) : List String :=
  splitLinesAux s.toList []

/-- Numeric value of a decimal digit character. -/
def digitVal (c : Char) : Nat := c.toNat - 48

/-- Parse one `"<count>x <name>"` line; header lines (starting `//`) and
blank lines yield `none`. -/
def parseEntryLine (line : String) : Option (String × Nat) :=
  let cs := line.toList
  let digits := cs.takeWhile Char.isDigit
  let rest := cs.dropWhile Char.isDigit
  if digits = [] then none
  else match rest with
    | 'x' :: ' ' :: nameChars =>
      some (String.mk nameChars, digits.foldl (fun a c => a * 10 + digitVal c) 0)
    | _ => none

/-- Parse a full `text` export back into its (name, count) lines. -/
def parseTextExport (s : String) : List (String × Nat) :=
  (splitLines s).filterMap parseEntryLine


/-- The values `indexCard` adds to the type index for one card. -/
def typeValues (c : Card) : List String := c.types

/-- The values `indexCard` adds to the subtype index for one card. -/
def subtypeValues (c : Card) : List String := c.subtypes

/-- The values `indexCard` adds to the supertype index for one card. -/
def supertypeValues (c : Card) : List String := c.supertypes

/-- The value `indexCard` adds to the rarity index for one card. -/
def rarityValues (c : Card) : List String :=
  if c.rarity ≠ "" then [c.rarity] else []

/-- The value `indexCard` adds to the set index for one card. -/
def setValues (c : Card) : List String :=
  if c.setCode ≠ "" then [lowerStr c.setCode] else []

/-- The values `indexCard` adds to the keyword index for one card. -/
def keywordValues (c : Card) : List String := c.keywords.map lowerStr

/-- The values `indexCard` adds to the format index for one card (the
formats in which it is legal). -/
def formatValues (c : Card) : List String :=
  ((c.legal_formats.getD []).filter (fun (p : String × Bool) => p.2)).map Prod.fst

/-- Total land count of a deck: the sum of entry counts over entries
whose card categorizes as `land`. -/
def deckLandTotal (deck : List DeckEntry) : Nat :=
  ((deck.filter (fun e => categorizeCard e.card == "land")).map (fun e => e.count)).sum

/-- The land loop without its early break: a comparison definition
following the spec's words for "the candidate pool could not supply
enough lands" (the whole land pool was consumed).  Used only on the
right-hand side of refinement statements. -/
def addLandsAllSpec (cons : Constraints) :
    List Card → List DeckEntry → DeckState → Rng → List DeckEntry × DeckState × Rng
  | [], deck, st, r => (deck, st, r)
  | land :: rest, deck, st, r =>
    let step := if isCardValid land cons st then addCardToDeck deck land st cons r else (deck, st, r)
    addLandsAllSpec cons rest step.1 step.2.1 step.2.2

/-! ### Concrete fixtures used by counterexamples and witnesses -/

/-- A card whose primary types contain `faerie`. -/
def cardT1 : Card := { id := "t1", types := ["faerie"] }

/-- A card whose subtypes contain `faerie`. -/
def cardT2 : Card := { id := "t2", subtypes := ["faerie"] }

/-- Corpus where `faerie` occurs in both the type and the subtype index. -/
def idxTypeFallback : CardSearchIndex := buildIndex [cardT1, cardT2]

/-- A card of type `alpha` only. -/
def cardT3 : Card := { id := "t3", types := ["alpha"] }

/-- A card of type `beta` only. -/
def cardT4 : Card := { id := "t4", types := ["beta"] }

/-- Corpus with two disjoint types. -/
def idxTwoTypes : CardSearchIndex := buildIndex [cardT3, cardT4]

/-- A card printed in set `abc`, rarity `rare`. -/
def cardS1 : Card := { id := "s1", setCode := "abc", rarity := "rare" }

/-- A common card in set `abc`. -/
def cardS2 : Card := { id := "s2", setCode := "abc", rarity := "common" }

/-- Corpus for the unknown-filter-value and rarity scenarios. -/
def idxSet : CardSearchIndex := buildIndex [cardS1, cardS2]

/-- A 1-mana instant used by the deck sampler fixtures. -/
def cardBolt : Card := { id := "bolt", name := "Bolt", types := ["instant"], cmc := some 1 }

/-- A non-basic land (its type line lacks `Basic`). -/
def cardLandX : Card := { id := "lx", name := "Cavern", types := ["land"], type_line := some "Land" }

/-- A basic land. -/
def cardWastes : Card := { id := "wst", name := "Wastes", types := ["land"], supertypes := ["basic"], type_line := some "Basic Land" }

/-- Constraints: tiny 4-card deck, 4 copies allowed, exactly 2 lands wanted. -/
def consSmall : ConstraintsInput :=
  { deckSize := some 4, maxCopies := some 4, minLands := some 2, maxLands := some 2 }

/-- The small constraints with a must-include seed name. -/
def consSeed : ConstraintsInput :=
  { deckSize := some 4, maxCopies := some 4, minLands := some 2, maxLands := some 2, mustInclude := ["Wastes"] }

/-- Constraints: 6-card deck, 4 copies allowed, exactly 2 lands wanted. -/
def consSix : ConstraintsInput :=
  { deckSize := some 6, maxCopies := some 4, minLands := some 2, maxLands := some 2 }

/-- A deterministic random stream that always draws 4. -/
def rng4 : Rng := { f := fun _ => 4 }

/-- A two-color (WU) commander, legal in commander. -/
def cardCmd : Card := { id := "cmd", oracle_id := "o-cmd", name := "General", types := ["creature"], color_identity := ['W', 'U'], legal_formats := some [("commander", true)], cmc := some 3 }

/-- An in-identity (U) candidate. -/
def cardInId : Card := { id := "in1", oracle_id := "o-in", name := "Counter", types := ["instant"], color_identity := ['U'], legal_formats := some [("commander", true)], cmc := some 1 }

/-- An out-of-identity (G) candidate. -/
def cardOutId : Card := { id := "out1", oracle_id := "o-out", name := "Growth", types := ["instant"], color_identity := ['G'], legal_formats := some [("commander", true)], cmc := some 1 }

/-- A card whose name embeds a newline followed by text shaped like an
entry line. -/
def cardNl : Card := { id := "nl", name := "a\n2x b", types := ["instant"] }

/-- A one-entry deck built from `cardNl`. -/
def deckNl : List DeckEntry := [{ card := cardNl, count := 1 }]

/-- A two-entry deck over two categories with a two-digit count. -/
def deckRt : List DeckEntry := [{ card := cardBolt, count := 2 }, { card := cardLandX, count := 13 }]

/-! ## Basic lemmas about the JavaScript set and map primitives -/

theorem mem_insertId {α : Type} [DecidableEq α] {s : List α} {y x : α} :
    x ∈ insertId s y ↔ x ∈ s ∨ x = y := by
  unfold insertId
  by_cases h : y ∈ s
  · simp only [if_pos h]
    constructor
    · exact Or.inl
    · rintro (hx | rfl)
      · exact hx
      · exact h
  · simp [if_neg h, List.mem_append]

theorem contains_true_iff {α : Type} [DecidableEq α] {l : List α} {x : α} :
    l.contains x = true ↔ x ∈ l := by
  simp

theorem nodup_insertId {α : Type} [DecidableEq α] {s : List α} {y : α}
    (h : s.Nodup) : (insertId s y).Nodup := by
  unfold insertId
  by_cases hy : y ∈ s
  · simpa [if_pos hy]
  · rw [if_neg hy]
    simp [List.nodup_append, h, hy]

theorem mem_foldl_insertId {α : Type} [DecidableEq α] :
    ∀ (l : List α) (init : List α) (x : α),
      x ∈ l.foldl insertId init ↔ x ∈ init ∨ x ∈ l := by
  intro l
  induction l with
  | nil => simp
  | cons a rest ih =>
    intro init x
    simp only [List.foldl_cons]
    rw [ih]
    rw [mem_insertId]
    constructor
    · rintro ((hx | rfl) | hx)
      · exact Or.inl hx
      · simp
      · simp [hx]
    · rintro (hx | hx)
      · exact Or.inl (Or.inl hx)
      · rcases List.mem_cons.1 hx with rfl | hx
        · exact Or.inl (Or.inr rfl)
        · exact Or.inr hx

theorem nodup_foldl_insertId {α : Type} [DecidableEq α] :
    ∀ (l : List α) (init : List α), init.Nodup → (l.foldl insertId init).Nodup := by
  intro l
  induction l with
  | nil => simpa
  | cons a rest ih =>
    intro init h
    exact ih _ (nodup_insertId h)

theorem mem_jsSetOf {α : Type} [DecidableEq α] {l : List α} {x : α} :
    x ∈ jsSetOf l ↔ x ∈ l := by
  unfold jsSetOf
  rw [mem_foldl_insertId]
  simp

theorem nodup_jsSetOf {α : Type} [DecidableEq α] (l : List α) : (jsSetOf l).Nodup :=
  nodup_foldl_insertId l [] List.nodup_nil

theorem mem_jsIntersect {a b : List String} {x : String} :
    x ∈ jsIntersect a b ↔ x ∈ a ∧ x ∈ b := by
  unfold jsIntersect
  rw [mem_jsSetOf]
  simp [List.mem_filter]

theorem mem_jsUnion {a b : List String} {x : String} :
    x ∈ jsUnion a b ↔ x ∈ a ∨ x ∈ b := by
  unfold jsUnion
  rw [mem_jsSetOf]
  simp [List.mem_append]

theorem scan_insertId_mem (f : String × Card → Bool) :
    ∀ (l : List (String × Card)) (init : List String) (x : String),
      x ∈ l.foldl (fun acc p => if f p then insertId acc p.1 else acc) init ↔
        x ∈ init ∨ ∃ p, p ∈ l ∧ f p = true ∧ p.1 = x := by
  intro l
  induction l with
  | nil => simp
  | cons a rest ih =>
    intro init x
    simp only [List.foldl_cons]
    rw [ih]
    by_cases hf : f a
    · simp only [if_pos hf, mem_insertId]
      constructor
      · rintro ((hx | rfl) | ⟨p, hp, hfp, rfl⟩)
        · exact Or.inl hx
        · exact Or.inr ⟨a, List.mem_cons_self a rest, hf, rfl⟩
        · exact Or.inr ⟨p, List.mem_cons_of_mem a hp, hfp, rfl⟩
      · rintro (hx | ⟨p, hp, hfp, rfl⟩)
        · exact Or.inl (Or.inl hx)
        · rcases List.mem_cons.1 hp with rfl | hp
          · exact Or.inl (Or.inr rfl)
          · exact Or.inr ⟨p, hp, hfp, rfl⟩
    · simp only [if_neg hf]
      constructor
      · rintro (hx | ⟨p, hp, hfp, rfl⟩)
        · exact Or.inl hx
        · exact Or.inr ⟨p, List.mem_cons_of_mem a hp, hfp, rfl⟩
      · rintro (hx | ⟨p, hp, hfp, rfl⟩)
        · exact Or.inl hx
        · rcases List.mem_cons.1 hp with rfl | hp
          · exact absurd hfp (by simp [hf])
          · exact Or.inr ⟨p, hp, hfp, rfl⟩

/-! ## Bridging the boolean set predicates to finite-set relations -/

theorem isSubsetB_iff (a b : List Char) :
    isSubsetB a b = true ↔ a.toFinset ⊆ b.toFinset := by
  unfold isSubsetB
  rw [List.all_eq_true]
  constructor
  · intro h x hx
    rw [List.mem_toFinset] at hx ⊢
    exact contains_true_iff.1 (h x hx)
  · intro h x hx
    exact contains_true_iff.2 (List.mem_toFinset.1 (h (List.mem_toFinset.2 hx)))

theorem setsEqual_iff {a b : List Char} (ha : a.Nodup) (hb : b.Nodup) :
    setsEqual a b = true ↔ a.toFinset = b.toFinset := by
  unfold setsEqual
  rw [Bool.and_eq_true, beq_iff_eq]
  have hcard : a.toFinset.card = a.length := List.toFinset_card_of_nodup ha
  have hcardb : b.toFinset.card = b.length := List.toFinset_card_of_nodup hb
  constructor
  · rintro ⟨hlen, hall⟩
    have hsub : a.toFinset ⊆ b.toFinset := (isSubsetB_iff a b).1 hall
    exact Finset.eq_of_subset_of_card_le hsub (by omega)
  · intro h
    have hc2 : a.toFinset.card = b.toFinset.card := by rw [h]
    exact ⟨by omega, (isSubsetB_iff a b).2 (by rw [h])⟩

theorem isProperSubsetB_iff {a b : List Char} (ha : a.Nodup) (hb : b.Nodup) :
    isProperSubsetB a b = true ↔ a.toFinset ⊂ b.toFinset := by
  unfold isProperSubsetB
  rw [Bool.and_eq_true, isSubsetB_iff, decide_eq_true_eq]
  have hcard : a.toFinset.card = a.length := List.toFinset_card_of_nodup ha
  have hcardb : b.toFinset.card = b.length := List.toFinset_card_of_nodup hb
  constructor
  · rintro ⟨hsub, hlt⟩
    refine Finset.ssubset_iff_subset_ne.2 ⟨hsub, fun h => ?_⟩
    rw [h] at hcard
    omega
  · intro h
    refine ⟨h.subset, ?_⟩
    have := Finset.card_lt_card h
    omega

theorem nodup_cardColorSet (c : Card) (field : String) : (cardColorSet c field).Nodup := by
  simp only [cardColorSet]
  split <;> split <;> first
    | exact nodup_insertId (nodup_jsSetOf _)
    | exact nodup_jsSetOf _

theorem nodup_targetColorSet (s : String) : (targetColorSet s).Nodup :=
  nodup_jsSetOf _

theorem pair_exists {l : List (String × Card)} {P : Card → Prop} {id : String} :
    (∃ p, p ∈ l ∧ P p.2 ∧ p.1 = id) ↔ ∃ c, (id, c) ∈ l ∧ P c := by
  constructor
  · rintro ⟨⟨k, c⟩, hp, hP, rfl⟩
    exact ⟨c, hp, hP⟩
  · rintro ⟨c, hc, hP⟩
    exact ⟨(id, c), hc, hP, rfl⟩

theorem mem_searchColors {idx : CardSearchIndex} {s op field id : String} :
    id ∈ searchColors idx s op field ↔
      ∃ c, (id, c) ∈ idx.cards ∧
        matchesColorOp op (cardColorSet c field) (targetColorSet s) = true := by
  unfold searchColors
  rw [scan_insertId_mem (fun p => matchesColorOp op (cardColorSet p.2 field) (targetColorSet s))]
  simp only [List.not_mem_nil, false_or]
  exact pair_exists (P := fun c => matchesColorOp op (cardColorSet c field) (targetColorSet s) = true)

/-- C1: for every indexed corpus, the colors / colorIdentity comparator
`searchColors` (with a colorless card coerced to the singleton set
containing `c`, and the query string lowercased and restricted to the
alphabet `wubrgc`) returns exactly the ids of cards whose color set `C`
and target set `S` satisfy `C = S` under `=`, `C ⊆ S` under `<=`,
`S ⊆ C` under `>=`, `C ⊂ S` under `<` and `S ⊂ C` under `>`. -/
theorem searchColors_characterization (idx : CardSearchIndex) (s field id : String) :
    (id ∈ searchColors idx s "=" field ↔ ∃ c, (id, c) ∈ idx.cards ∧
      (cardColorSet c field).toFinset = (targetColorSet s).toFinset)
  ∧ (id ∈ searchColors idx s "<=" field ↔ ∃ c, (id, c) ∈ idx.cards ∧
      (cardColorSet c field).toFinset ⊆ (targetColorSet s).toFinset)
  ∧ (id ∈ searchColors idx s ">=" field ↔ ∃ c, (id, c) ∈ idx.cards ∧
      (targetColorSet s).toFinset ⊆ (cardColorSet c field).toFinset)
  ∧ (id ∈ searchColors idx s "<" field ↔ ∃ c, (id, c) ∈ idx.cards ∧
      (cardColorSet c field).toFinset ⊂ (targetColorSet s).toFinset)
  ∧ (id ∈ searchColors idx s ">" field ↔ ∃ c, (id, c) ∈ idx.cards ∧
      (targetColorSet s).toFinset ⊂ (cardColorSet c field).toFinset) := by
  refine ⟨?_, ?_, ?_, ?_, ?_⟩ <;> rw [mem_searchColors] <;>
    apply exists_congr <;> intro c <;> apply and_congr_right <;> intro _
  · rw [show matchesColorOp "=" (cardColorSet c field) (targetColorSet s) =
        setsEqual (cardColorSet c field) (targetColorSet s) from rfl]
    exact setsEqual_iff (nodup_cardColorSet c field) (nodup_targetColorSet s)
  · rw [show matchesColorOp "<=" (cardColorSet c field) (targetColorSet s) =
        isSubsetB (cardColorSet c field) (targetColorSet s) from rfl]
    exact isSubsetB_iff _ _
  · rw [show matchesColorOp ">=" (cardColorSet c field) (targetColorSet s) =
        isSubsetB (targetColorSet s) (cardColorSet c field) from rfl]
    exact isSubsetB_iff _ _
  · rw [show matchesColorOp "<" (cardColorSet c field) (targetColorSet s) =
        isProperSubsetB (cardColorSet c field) (targetColorSet s) from rfl]
    exact isProperSubsetB_iff (nodup_cardColorSet c field) (nodup_targetColorSet s)
  · rw [show matchesColorOp ">" (cardColorSet c field) (targetColorSet s) =
        isProperSubsetB (targetColorSet s) (cardColorSet c field) from rfl]
    exact isProperSubsetB_iff (nodup_targetColorSet s) (nodup_cardColorSet c field)


/-! ## Field index build lemmas -/

theorem alookup_fiAdd_mem :
    ∀ (fi : FieldIndex) (v id v' id' : String),
      id' ∈ (alookup (fiAdd fi v id) v').getD [] ↔
        id' ∈ (alookup fi v').getD [] ∨ (v = v' ∧ id = id') := by
  intro fi
  induction fi with
  | nil =>
    intro v id v' id'
    by_cases h : v = v' <;> simp [fiAdd, alookup, h, eq_comm]
  | cons kv rest ih =>
    intro v id v' id'
    obtain ⟨k, ids⟩ := kv
    by_cases hkv : k = v
    · subst hkv
      by_cases hkv2 : k = v'
      · subst hkv2
        simp [fiAdd, alookup, mem_insertId, eq_comm]
      · simp [fiAdd, alookup, hkv2]
    · by_cases hkv2 : k = v'
      · subst hkv2
        simp only [fiAdd, if_neg (Ne.symm (Ne.intro (fun h => hkv h.symm)))]
        simp only [alookup, if_pos rfl]
        have : ¬(v = k ∧ id = id') := fun h => hkv h.1.symm
        constructor
        · exact Or.inl
        · rintro (h | h)
          · exact h
          · exact absurd h this
      · simp only [fiAdd]
        rw [if_neg (fun h => hkv h)]
        simp only [alookup, if_neg hkv2]
        exact ih v id v' id'

theorem alookup_fiAdd_none :
    ∀ (fi : FieldIndex) (v id v' : String),
      alookup (fiAdd fi v id) v' = none ↔ alookup fi v' = none ∧ v ≠ v' := by
  intro fi
  induction fi with
  | nil =>
    intro v id v'
    by_cases h : v = v' <;> simp [fiAdd, alookup, h]
  | cons kv rest ih =>
    intro v id v'
    obtain ⟨k, ids⟩ := kv
    by_cases hkv : k = v
    · subst hkv
      by_cases hkv2 : k = v' <;> simp [fiAdd, alookup, hkv2]
    · rw [show fiAdd ((k, ids) :: rest) v id = (k, ids) :: fiAdd rest v id from by
        simp [fiAdd, hkv]]
      by_cases hkv2 : k = v' <;> simp [alookup, hkv2, ih v id v']

theorem addValues_mem (cid : String) :
    ∀ (vs : List String) (fi : FieldIndex) (v id' : String),
      id' ∈ (alookup (vs.foldl (fun fi2 w => fiAdd fi2 w cid) fi) v).getD [] ↔
        id' ∈ (alookup fi v).getD [] ∨ (v ∈ vs ∧ id' = cid) := by
  intro vs
  induction vs with
  | nil => simp
  | cons w rest ih =>
    intro fi v id'
    simp only [List.foldl_cons]
    rw [ih]
    rw [alookup_fiAdd_mem]
    constructor
    · rintro ((h | ⟨rfl, rfl⟩) | ⟨hv, rfl⟩)
      · exact Or.inl h
      · exact Or.inr ⟨List.mem_cons_self w rest, rfl⟩
      · exact Or.inr ⟨List.mem_cons_of_mem w hv, rfl⟩
    · rintro (h | ⟨hv, rfl⟩)
      · exact Or.inl (Or.inl h)
      · rcases List.mem_cons.1 hv with rfl | hv
        · exact Or.inl (Or.inr ⟨rfl, rfl⟩)
        · exact Or.inr ⟨hv, rfl⟩

theorem addValues_none (cid : String) :
    ∀ (vs : List String) (fi : FieldIndex) (v : String),
      alookup (vs.foldl (fun fi2 w => fiAdd fi2 w cid) fi) v = none ↔
        alookup fi v = none ∧ v ∉ vs := by
  intro vs
  induction vs with
  | nil => simp
  | cons w rest ih =>
    intro fi v
    simp only [List.foldl_cons]
    rw [ih, alookup_fiAdd_none]
    constructor
    · rintro ⟨⟨h1, h2⟩, h3⟩
      exact ⟨h1, by simp [List.mem_cons, h3]; exact fun e => (h2 e.symm).elim⟩
    · rintro ⟨h1, h2⟩
      simp only [List.mem_cons, not_or] at h2
      exact ⟨⟨h1, fun e => h2.1 e.symm⟩, h2.2⟩

theorem addAll_mem (g : Card → List String) :
    ∀ (cards : List Card) (fi : FieldIndex) (v id' : String),
      id' ∈ (alookup (cards.foldl (fun fi2 c => (g c).foldl (fun fi3 w => fiAdd fi3 w c.id) fi2) fi) v).getD [] ↔
        id' ∈ (alookup fi v).getD [] ∨ ∃ c ∈ cards, c.id = id' ∧ v ∈ g c := by
  intro cards
  induction cards with
  | nil => simp
  | cons c rest ih =>
    intro fi v id'
    simp only [List.foldl_cons]
    rw [ih, addValues_mem]
    constructor
    · rintro ((h | ⟨hv, rfl⟩) | ⟨c2, hc2, rfl, hv⟩)
      · exact Or.inl h
      · exact Or.inr ⟨c, List.mem_cons_self c rest, rfl, hv⟩
      · exact Or.inr ⟨c2, List.mem_cons_of_mem c hc2, rfl, hv⟩
    · rintro (h | ⟨c2, hc2, rfl, hv⟩)
      · exact Or.inl (Or.inl h)
      · rcases List.mem_cons.1 hc2 with rfl | hc2
        · exact Or.inl (Or.inr ⟨hv, rfl⟩)
        · exact Or.inr ⟨c2, hc2, rfl, hv⟩

theorem addAll_none (g : Card → List String) :
    ∀ (cards : List Card) (fi : FieldIndex) (v : String),
      alookup (cards.foldl (fun fi2 c => (g c).foldl (fun fi3 w => fiAdd fi3 w c.id) fi2) fi) v = none ↔
        alookup fi v = none ∧ ∀ c ∈ cards, v ∉ g c := by
  intro cards
  induction cards with
  | nil => simp
  | cons c rest ih =>
    intro fi v
    simp only [List.foldl_cons]
    rw [ih, addValues_none]
    constructor
    · rintro ⟨⟨h1, h2⟩, h3⟩
      refine ⟨h1, fun c2 hc2 => ?_⟩
      rcases List.mem_cons.1 hc2 with rfl | hc2
      · exact h2
      · exact h3 c2 hc2
    · rintro ⟨h1, h2⟩
      exact ⟨⟨h1, h2 c (List.mem_cons_self c rest)⟩,
        fun c2 hc2 => h2 c2 (List.mem_cons_of_mem c hc2)⟩

theorem foldl_indexCard_proj {β : Type} (proj : CardSearchIndex → β) (upd : β → Card → β)
    (h : ∀ idx c, proj (indexCard idx c) = upd (proj idx) c) :
    ∀ (cards : List Card) (idx : CardSearchIndex),
      proj (cards.foldl indexCard idx) = cards.foldl upd (proj idx) := by
  intro cards
  induction cards with
  | nil => intro idx; rfl
  | cons c rest ih =>
    intro idx
    rw [List.foldl_cons, List.foldl_cons, ih, h]

theorem typeIdx_indexCard (idx : CardSearchIndex) (c : Card) :
    (indexCard idx c).typeIdx = (typeValues c).foldl (fun fi w => fiAdd fi w c.id) idx.typeIdx := rfl

theorem subtypeIdx_indexCard (idx : CardSearchIndex) (c : Card) :
    (indexCard idx c).subtypeIdx = (subtypeValues c).foldl (fun fi w => fiAdd fi w c.id) idx.subtypeIdx := rfl

theorem supertypeIdx_indexCard (idx : CardSearchIndex) (c : Card) :
    (indexCard idx c).supertypeIdx = (supertypeValues c).foldl (fun fi w => fiAdd fi w c.id) idx.supertypeIdx := rfl

theorem rarityIdx_indexCard (idx : CardSearchIndex) (c : Card) :
    (indexCard idx c).rarityIdx = (rarityValues c).foldl (fun fi w => fiAdd fi w c.id) idx.rarityIdx := by
  show (if c.rarity ≠ "" then fiAdd idx.rarityIdx c.rarity c.id else idx.rarityIdx) = _
  unfold rarityValues
  by_cases h : c.rarity = "" <;> simp [h]

theorem setIdx_indexCard (idx : CardSearchIndex) (c : Card) :
    (indexCard idx c).setIdx = (setValues c).foldl (fun fi w => fiAdd fi w c.id) idx.setIdx := by
  show (if c.setCode ≠ "" then fiAdd idx.setIdx (lowerStr c.setCode) c.id else idx.setIdx) = _
  unfold setValues
  by_cases h : c.setCode = "" <;> simp [h]

theorem keywordIdx_indexCard (idx : CardSearchIndex) (c : Card) :
    (indexCard idx c).keywordIdx = (keywordValues c).foldl (fun fi w => fiAdd fi w c.id) idx.keywordIdx := by
  show c.keywords.foldl (fun fi kw => fiAdd fi (lowerStr kw) c.id) idx.keywordIdx = _
  unfold keywordValues
  rw [List.foldl_map]

theorem formatIdx_indexCard (idx : CardSearchIndex) (c : Card) :
    (indexCard idx c).formatIdx = (formatValues c).foldl (fun fi w => fiAdd fi w c.id) idx.formatIdx := by
  show ((c.legal_formats.getD []).filter (fun (p : String × Bool) => p.2)).foldl
    (fun fi p => fiAdd fi p.1 c.id) idx.formatIdx = _
  unfold formatValues
  rw [List.foldl_map]

theorem mem_typeIdx (cards : List Card) (v id : String) :
    id ∈ (alookup (buildIndex cards).typeIdx v).getD [] ↔
      ∃ c ∈ cards, c.id = id ∧ v ∈ c.types := by
  unfold buildIndex
  rw [foldl_indexCard_proj (fun i => i.typeIdx) (fun fi c => (typeValues c).foldl (fun fi2 w => fiAdd fi2 w c.id) fi) typeIdx_indexCard]
  rw [addAll_mem typeValues]
  simp [alookup, typeValues]

theorem none_typeIdx (cards : List Card) (v : String) :
    alookup (buildIndex cards).typeIdx v = none ↔ ∀ c ∈ cards, v ∉ c.types := by
  unfold buildIndex
  rw [foldl_indexCard_proj (fun i => i.typeIdx) (fun fi c => (typeValues c).foldl (fun fi2 w => fiAdd fi2 w c.id) fi) typeIdx_indexCard]
  rw [addAll_none typeValues]
  simp [alookup, typeValues]

theorem mem_subtypeIdx (cards : List Card) (v id : String) :
    id ∈ (alookup (buildIndex cards).subtypeIdx v).getD [] ↔
      ∃ c ∈ cards, c.id = id ∧ v ∈ c.subtypes := by
  unfold buildIndex
  rw [foldl_indexCard_proj (fun i => i.subtypeIdx) (fun fi c => (subtypeValues c).foldl (fun fi2 w => fiAdd fi2 w c.id) fi) subtypeIdx_indexCard]
  rw [addAll_mem subtypeValues]
  simp [alookup, subtypeValues]

theorem none_subtypeIdx (cards : List Card) (v : String) :
    alookup (buildIndex cards).subtypeIdx v = none ↔ ∀ c ∈ cards, v ∉ c.subtypes := by
  unfold buildIndex
  rw [foldl_indexCard_proj (fun i => i.subtypeIdx) (fun fi c => (subtypeValues c).foldl (fun fi2 w => fiAdd fi2 w c.id) fi) subtypeIdx_indexCard]
  rw [addAll_none subtypeValues]
  simp [alookup, subtypeValues]

theorem mem_supertypeIdx (cards : List Card) (v id : String) :
    id ∈ (alookup (buildIndex cards).supertypeIdx v).getD [] ↔
      ∃ c ∈ cards, c.id = id ∧ v ∈ c.supertypes := by
  unfold buildIndex
  rw [foldl_indexCard_proj (fun i => i.supertypeIdx) (fun fi c => (supertypeValues c).foldl (fun fi2 w => fiAdd fi2 w c.id) fi) supertypeIdx_indexCard]
  rw [addAll_mem supertypeValues]
  simp [alookup, supertypeValues]

theorem none_supertypeIdx (cards : List Card) (v : String) :
    alookup (buildIndex cards).supertypeIdx v = none ↔ ∀ c ∈ cards, v ∉ c.supertypes := by
  unfold buildIndex
  rw [foldl_indexCard_proj (fun i => i.supertypeIdx) (fun fi c => (supertypeValues c).foldl (fun fi2 w => fiAdd fi2 w c.id) fi) supertypeIdx_indexCard]
  rw [addAll_none supertypeValues]
  simp [alookup, supertypeValues]


/-! ## getFieldIds dispatch equations -/

theorem getFieldIds_type (idx : CardSearchIndex) (v : String) :
    getFieldIds idx "type" v = alookup idx.typeIdx v := rfl

theorem getFieldIds_subtype (idx : CardSearchIndex) (v : String) :
    getFieldIds idx "subtype" v = alookup idx.subtypeIdx v := rfl

theorem getFieldIds_supertype (idx : CardSearchIndex) (v : String) :
    getFieldIds idx "supertype" v = alookup idx.supertypeIdx v := rfl

theorem not_forall_not_mem {P : Card → Prop} {cards : List Card} :
    (¬ ∀ c ∈ cards, ¬ P c) ↔ ∃ c ∈ cards, P c := by
  push_neg
  simp

/-! ## C2: the type filter -/

theorem mem_searchTypeIds_aux (idx : CardSearchIndex) :
    ∀ (ts : List String) (init : List String) (id : String),
      id ∈ ts.foldl (fun typeIds t =>
        match typeFallbackIds idx t with
        | some s => jsUnion typeIds s
        | none => typeIds) init ↔
        id ∈ init ∨ ∃ t ∈ ts, id ∈ (typeFallbackIds idx t).getD [] := by
  have hstep : ∀ (init : List String) (t id : String),
      (id ∈ (match typeFallbackIds idx t with
             | some s => jsUnion init s
             | none => init)) ↔ id ∈ init ∨ id ∈ (typeFallbackIds idx t).getD [] := by
    intro init t id
    cases typeFallbackIds idx t with
    | none => simp
    | some s => simp [mem_jsUnion]
  intro ts
  induction ts with
  | nil => simp
  | cons t rest ih =>
    intro init id
    simp only [List.foldl_cons]
    rw [ih, hstep init t id]
    constructor
    · rintro ((h | h) | ⟨t2, ht2, hm⟩)
      · exact Or.inl h
      · exact Or.inr ⟨t, List.mem_cons_self t rest, h⟩
      · exact Or.inr ⟨t2, List.mem_cons_of_mem t ht2, hm⟩
    · rintro (h | ⟨t2, ht2, hm⟩)
      · exact Or.inl (Or.inl h)
      · rcases List.mem_cons.1 ht2 with rfl | ht2
        · exact Or.inl (Or.inr hm)
        · exact Or.inr ⟨t2, ht2, hm⟩

theorem typeFallbackIds_buildIndex (cards : List Card) (t id : String) :
    id ∈ (typeFallbackIds (buildIndex cards) t).getD [] ↔
      (if ∃ c ∈ cards, (lowerStr t) ∈ c.types then
        ∃ c ∈ cards, c.id = id ∧ (lowerStr t) ∈ c.types
      else if ∃ c ∈ cards, (lowerStr t) ∈ c.subtypes then
        ∃ c ∈ cards, c.id = id ∧ (lowerStr t) ∈ c.subtypes
      else ∃ c ∈ cards, c.id = id ∧ (lowerStr t) ∈ c.supertypes) := by
  have hty := mem_typeIdx cards (lowerStr t) id
  have hsub := mem_subtypeIdx cards (lowerStr t) id
  have hsup := mem_supertypeIdx cards (lowerStr t) id
  unfold typeFallbackIds
  rw [getFieldIds_type, getFieldIds_subtype, getFieldIds_supertype]
  cases h1 : alookup (buildIndex cards).typeIdx (lowerStr t) with
  | some s1 =>
    have hc1 : ∃ c ∈ cards, (lowerStr t) ∈ c.types := by
      by_contra hno
      have hall : ∀ c ∈ cards, (lowerStr t) ∉ c.types := fun c hc hm => hno ⟨c, hc, hm⟩
      rw [(none_typeIdx cards (lowerStr t)).2 hall] at h1
      cases h1
    rw [if_pos hc1]
    rw [h1] at hty
    simpa using hty
  | none =>
    have hc1 : ¬ ∃ c ∈ cards, (lowerStr t) ∈ c.types :=
      fun h => by
        obtain ⟨c, hc, hm⟩ := h
        exact (none_typeIdx cards (lowerStr t)).1 h1 c hc hm
    rw [if_neg hc1]
    cases h2 : alookup (buildIndex cards).subtypeIdx (lowerStr t) with
    | some s2 =>
      have hc2 : ∃ c ∈ cards, (lowerStr t) ∈ c.subtypes := by
        by_contra hno
        have hall : ∀ c ∈ cards, (lowerStr t) ∉ c.subtypes := fun c hc hm => hno ⟨c, hc, hm⟩
        rw [(none_subtypeIdx cards (lowerStr t)).2 hall] at h2
        cases h2
      rw [if_pos hc2]
      rw [h2] at hsub
      simpa using hsub
    | none =>
      have hc2 : ¬ ∃ c ∈ cards, (lowerStr t) ∈ c.subtypes :=
        fun h => by
          obtain ⟨c, hc, hm⟩ := h
          exact (none_subtypeIdx cards (lowerStr t)).1 h2 c hc hm
      rw [if_neg hc2]
      exact hsup

/-- C2 (amended): for each requested type, the candidate id-set is the
first non-null match among the type index, then the subtype index, then
the supertype index (a fallback chain, not a union of the three); the
id-sets of the several requested types are then unioned (not
intersected) with each other, and only the combined set is intersected
into the running result. -/
theorem searchTypeIds_semantics (cards : List Card) (ts : List String) (id : String) :
    id ∈ searchTypeIds (buildIndex cards) ts ↔
      ∃ t ∈ ts,
        (if ∃ c ∈ cards, (lowerStr t) ∈ c.types then
          ∃ c ∈ cards, c.id = id ∧ (lowerStr t) ∈ c.types
        else if ∃ c ∈ cards, (lowerStr t) ∈ c.subtypes then
          ∃ c ∈ cards, c.id = id ∧ (lowerStr t) ∈ c.subtypes
        else ∃ c ∈ cards, c.id = id ∧ (lowerStr t) ∈ c.supertypes) := by
  unfold searchTypeIds
  rw [mem_searchTypeIds_aux]
  simp only [List.not_mem_nil, false_or]
  exact exists_congr fun t => and_congr_right fun _ => typeFallbackIds_buildIndex cards t id

/-- C2 counterexample: with `faerie` present in the type index (card `t1`)
and the subtype index (card `t2`), the computed candidate set for
`type: faerie` is `[t1]`, not the union `[t1, t2]` of the three indices;
and for two requested types the computed set is the union of the
per-type sets while their intersection is empty. -/
theorem typeFilter_counterexample :
    searchTypeIds idxTypeFallback ["faerie"] = ["t1"]
  ∧ jsUnion (jsUnion ((getFieldIds idxTypeFallback "type" "faerie").getD [])
        ((getFieldIds idxTypeFallback "subtype" "faerie").getD []))
      ((getFieldIds idxTypeFallback "supertype" "faerie").getD []) = ["t1", "t2"]
  ∧ searchTypeIds idxTwoTypes ["alpha", "beta"] = ["t3", "t4"]
  ∧ jsIntersect (searchTypeIds idxTwoTypes ["alpha"]) (searchTypeIds idxTwoTypes ["beta"]) = [] := by
  exact ⟨by decide, by decide, by decide, by decide⟩


/-! ## The cards map of a built index -/

theorem cards_indexCard (idx : CardSearchIndex) (c : Card) :
    (indexCard idx c).cards = aset idx.cards c.id c := rfl

theorem aset_append_of_fresh {m : List (String × Card)} {k : String} {v : Card}
    (h : ∀ p ∈ m, p.1 ≠ k) : aset m k v = m ++ [(k, v)] := by
  induction m with
  | nil => rfl
  | cons p rest ih =>
    have hp : p.1 ≠ k := h p (List.mem_cons_self p rest)
    simp only [aset, if_neg hp, List.cons_append, List.cons.injEq, true_and]
    exact ih (fun q hq => h q (List.mem_cons_of_mem p hq))

theorem foldl_aset_eq :
    ∀ (cards : List Card) (m : List (String × Card)),
      (∀ c ∈ cards, ∀ p ∈ m, p.1 ≠ c.id) → (cards.map Card.id).Nodup →
      cards.foldl (fun m2 c => aset m2 c.id c) m = m ++ cards.map (fun c => (c.id, c)) := by
  intro cards
  induction cards with
  | nil => intro m _ _; simp
  | cons c rest ih =>
    intro m hfresh hnd
    simp only [List.foldl_cons]
    rw [aset_append_of_fresh (hfresh c (List.mem_cons_self c rest))]
    rw [List.map_cons, List.nodup_cons] at hnd
    rw [ih (m ++ [(c.id, c)]) ?_ hnd.2]
    · simp
    · intro c2 hc2 p hp
      rcases List.mem_append.1 hp with hp | hp
      · exact hfresh c2 (List.mem_cons_of_mem c hc2) p hp
      · rcases List.mem_singleton.1 hp with rfl
        intro he
        apply hnd.1
        have he2 : c2.id = c.id := by simpa using he.symm
        rw [← he2]
        exact List.mem_map_of_mem Card.id hc2

theorem cards_buildIndex (cards : List Card) (h : (cards.map Card.id).Nodup) :
    (buildIndex cards).cards = cards.map (fun c => (c.id, c)) := by
  unfold buildIndex
  rw [foldl_indexCard_proj (fun i => i.cards) (fun m c => aset m c.id c) cards_indexCard]
  exact foldl_aset_eq cards [] (by simp) h

theorem mem_pairs_iff {cards : List Card} {id : String} {c : Card} :
    (id, c) ∈ cards.map (fun c2 => (c2.id, c2)) ↔ c ∈ cards ∧ c.id = id := by
  rw [List.mem_map]
  constructor
  · rintro ⟨c2, hc2, he⟩
    obtain ⟨h1, h2⟩ := Prod.mk.injEq .. ▸ he
    cases h2
    exact ⟨hc2, h1.symm ▸ rfl⟩
  · rintro ⟨hc, rfl⟩
    exact ⟨c, hc, rfl⟩

/-! ## C7: the rarity filter -/

theorem mem_rarityIdx (cards : List Card) (v id : String) :
    id ∈ (alookup (buildIndex cards).rarityIdx v).getD [] ↔
      ∃ c ∈ cards, c.id = id ∧ c.rarity = v ∧ c.rarity ≠ "" := by
  unfold buildIndex
  rw [foldl_indexCard_proj (fun i => i.rarityIdx)
    (fun fi c => (rarityValues c).foldl (fun fi2 w => fiAdd fi2 w c.id) fi) rarityIdx_indexCard]
  rw [addAll_mem rarityValues]
  simp only [alookup, Option.getD_none, List.not_mem_nil, false_or]
  apply exists_congr
  intro c
  apply and_congr_right
  intro _
  apply and_congr_right
  intro _
  unfold rarityValues
  by_cases h : c.rarity = "" <;> simp [h, eq_comm]

theorem rarityCardMatches_eq (ti : Nat) (c : Card) :
    (rarityCardMatches "=" ti c = true ↔
      ∃ ci, idxOfStr rarityOrder c.rarity = some ci ∧ ci = ti)
  ∧ (rarityCardMatches "<" ti c = true ↔
      ∃ ci, idxOfStr rarityOrder c.rarity = some ci ∧ ci < ti)
  ∧ (rarityCardMatches ">" ti c = true ↔
      ∃ ci, idxOfStr rarityOrder c.rarity = some ci ∧ ci > ti)
  ∧ (rarityCardMatches "<=" ti c = true ↔
      ∃ ci, idxOfStr rarityOrder c.rarity = some ci ∧ ci ≤ ti)
  ∧ (rarityCardMatches ">=" ti c = true ↔
      ∃ ci, idxOfStr rarityOrder c.rarity = some ci ∧ ci ≥ ti) := by
  unfold rarityCardMatches rarityOpMatches
  cases idxOfStr rarityOrder c.rarity with
  | none => simp
  | some ci => simp [Nat.lt_iff_add_one_le]

theorem mem_searchRarity_ord {idx : CardSearchIndex} {r op id : String} {ti : Nat}
    (h : idxOfStr rarityOrder (lowerStr r) = some ti) :
    id ∈ searchRarity idx r op ↔
      ∃ c, (id, c) ∈ idx.cards ∧ rarityCardMatches op ti c = true := by
  unfold searchRarity
  simp only [h]
  rw [scan_insertId_mem (fun p => rarityCardMatches op ti p.2)]
  simp only [List.not_mem_nil, false_or]
  exact pair_exists (P := fun c => rarityCardMatches op ti c = true)

theorem mem_searchRarity_fallback {idx : CardSearchIndex} {r op id : String}
    (h : idxOfStr rarityOrder (lowerStr r) = none) :
    id ∈ searchRarity idx r op ↔ id ∈ (getFieldIds idx "rarity" (lowerStr r)).getD [] := by
  unfold searchRarity
  simp only [h]


theorem getFieldIds_rarity (idx : CardSearchIndex) (v : String) :
    getFieldIds idx "rarity" v = alookup idx.rarityIdx v := rfl

/-- C7: a `rarity >= rare` search never returns a common or uncommon
card; for a recognized target rarity the filter compares the positions
of the card's rarity and the target rarity in the fixed order
common < uncommon < rare < mythic (cards with a rarity outside the
order never match), and an unrecognized target rarity falls back to an
exact-match lookup in the rarity index. -/
theorem searchRarity_spec (cards : List Card) (h : (cards.map Card.id).Nodup)
    (r op id : String) :
    (id ∈ searchRarity (buildIndex cards) "rare" ">=" →
      ∀ c ∈ cards, c.id = id → c.rarity ≠ "common" ∧ c.rarity ≠ "uncommon")
  ∧ (∀ ti, idxOfStr rarityOrder (lowerStr r) = some ti →
      ((id ∈ searchRarity (buildIndex cards) r "=" ↔
        ∃ c ∈ cards, c.id = id ∧ ∃ ci, idxOfStr rarityOrder c.rarity = some ci ∧ ci = ti)
      ∧ (id ∈ searchRarity (buildIndex cards) r "<" ↔
        ∃ c ∈ cards, c.id = id ∧ ∃ ci, idxOfStr rarityOrder c.rarity = some ci ∧ ci < ti)
      ∧ (id ∈ searchRarity (buildIndex cards) r ">" ↔
        ∃ c ∈ cards, c.id = id ∧ ∃ ci, idxOfStr rarityOrder c.rarity = some ci ∧ ci > ti)
      ∧ (id ∈ searchRarity (buildIndex cards) r "<=" ↔
        ∃ c ∈ cards, c.id = id ∧ ∃ ci, idxOfStr rarityOrder c.rarity = some ci ∧ ci ≤ ti)
      ∧ (id ∈ searchRarity (buildIndex cards) r ">=" ↔
        ∃ c ∈ cards, c.id = id ∧ ∃ ci, idxOfStr rarityOrder c.rarity = some ci ∧ ci ≥ ti)))
  ∧ (idxOfStr rarityOrder (lowerStr r) = none →
      (id ∈ searchRarity (buildIndex cards) r op ↔
        ∃ c ∈ cards, c.id = id ∧ c.rarity = lowerStr r ∧ c.rarity ≠ "")) := by
  have hcards := cards_buildIndex cards h
  have hord : ∀ (r2 opv : String) (ti : Nat), idxOfStr rarityOrder (lowerStr r2) = some ti →
      (id ∈ searchRarity (buildIndex cards) r2 opv ↔
        ∃ c ∈ cards, c.id = id ∧ rarityCardMatches opv ti c = true) := by
    intro r2 opv ti hti
    rw [mem_searchRarity_ord hti, hcards]
    constructor
    · rintro ⟨c, hc, hm⟩
      obtain ⟨hcc, hid⟩ := mem_pairs_iff.1 hc
      exact ⟨c, hcc, hid, hm⟩
    · rintro ⟨c, hc, hid, hm⟩
      exact ⟨c, mem_pairs_iff.2 ⟨hc, hid⟩, hm⟩
  refine ⟨?_, ?_, ?_⟩
  · intro hm c hc hid
    have h2 : idxOfStr rarityOrder (lowerStr "rare") = some 2 := by decide
    obtain ⟨c0, hc0, hid0, hmatch⟩ := (hord "rare" ">=" 2 h2).1 hm
    obtain ⟨ci, hci, hge⟩ := (rarityCardMatches_eq 2 c0).2.2.2.2.1 hmatch
    have hceq : c = c0 := by
      have := List.inj_on_of_nodup_map h hc hc0
      exact this (by rw [hid, hid0])
    subst hceq
    constructor
    · intro hcom
      rw [hcom] at hci
      rw [show idxOfStr rarityOrder "common" = some 0 from by decide] at hci
      cases hci
      omega
    · intro hcom
      rw [hcom] at hci
      rw [show idxOfStr rarityOrder "uncommon" = some 1 from by decide] at hci
      cases hci
      omega
  · intro ti hti
    refine ⟨?_, ?_, ?_, ?_, ?_⟩
    · rw [hord r "=" ti hti]
      exact exists_congr fun c => and_congr_right fun _ => and_congr_right fun _ =>
        (rarityCardMatches_eq ti c).1
    · rw [hord r "<" ti hti]
      exact exists_congr fun c => and_congr_right fun _ => and_congr_right fun _ =>
        (rarityCardMatches_eq ti c).2.1
    · rw [hord r ">" ti hti]
      exact exists_congr fun c => and_congr_right fun _ => and_congr_right fun _ =>
        (rarityCardMatches_eq ti c).2.2.1
    · rw [hord r "<=" ti hti]
      exact exists_congr fun c => and_congr_right fun _ => and_congr_right fun _ =>
        (rarityCardMatches_eq ti c).2.2.2.1
    · rw [hord r ">=" ti hti]
      exact exists_congr fun c => and_congr_right fun _ => and_congr_right fun _ =>
        (rarityCardMatches_eq ti c).2.2.2.2
  · intro hnone
    rw [mem_searchRarity_fallback hnone, getFieldIds_rarity]
    exact mem_rarityIdx cards (lowerStr r) id


/-! ## C5: unknown set / format / keyword filter values -/

theorem getFieldIds_set (idx : CardSearchIndex) (v : String) :
    getFieldIds idx "set" v = alookup idx.setIdx v := rfl

theorem getFieldIds_format (idx : CardSearchIndex) (v : String) :
    getFieldIds idx "format" v = alookup idx.formatIdx v := rfl

theorem getFieldIds_keyword (idx : CardSearchIndex) (v : String) :
    getFieldIds idx "keyword" v = alookup idx.keywordIdx v := rfl

theorem none_setIdx (cards : List Card) (v : String) :
    alookup (buildIndex cards).setIdx v = none ↔ ∀ c ∈ cards, v ∉ setValues c := by
  unfold buildIndex
  rw [foldl_indexCard_proj (fun i => i.setIdx)
    (fun fi c => (setValues c).foldl (fun fi2 w => fiAdd fi2 w c.id) fi) setIdx_indexCard]
  rw [addAll_none setValues]
  simp [alookup]

theorem none_formatIdx (cards : List Card) (v : String) :
    alookup (buildIndex cards).formatIdx v = none ↔ ∀ c ∈ cards, v ∉ formatValues c := by
  unfold buildIndex
  rw [foldl_indexCard_proj (fun i => i.formatIdx)
    (fun fi c => (formatValues c).foldl (fun fi2 w => fiAdd fi2 w c.id) fi) formatIdx_indexCard]
  rw [addAll_none formatValues]
  simp [alookup]

theorem none_keywordIdx (cards : List Card) (v : String) :
    alookup (buildIndex cards).keywordIdx v = none ↔ ∀ c ∈ cards, v ∉ keywordValues c := by
  unfold buildIndex
  rw [foldl_indexCard_proj (fun i => i.keywordIdx)
    (fun fi c => (keywordValues c).foldl (fun fi2 w => fiAdd fi2 w c.id) fi) keywordIdx_indexCard]
  rw [addAll_none keywordValues]
  simp [alookup]

theorem combineIds_empty (ids : List String) : combineIds (some []) ids = some [] := rfl

theorem keywordFold_empty (idx : CardSearchIndex) :
    ∀ (kws : List String),
      kws.foldl (fun acc2 kw =>
        match getFieldIds idx "keyword" (lowerStr kw) with
        | some keyIds => combineIds acc2 keyIds
        | none => some []) (some []) = some [] := by
  intro kws
  induction kws with
  | nil => rfl
  | cons kw rest ih =>
    simp only [List.foldl_cons]
    cases getFieldIds idx "keyword" (lowerStr kw) with
    | none => exact ih
    | some keyIds => exact ih

theorem stepFormat_empty (idx : CardSearchIndex) (q : Query) :
    stepFormat idx q (some []) = some [] := by
  unfold stepFormat
  cases strOpt q.format with
  | none => rfl
  | some f =>
    show (match getFieldIds idx "format" (lowerStr f) with
          | some formatIds => combineIds (some []) formatIds
          | none => some []) = some []
    cases getFieldIds idx "format" (lowerStr f) with
    | none => rfl
    | some formatIds => exact combineIds_empty formatIds

theorem stepKeyword_empty_acc (idx : CardSearchIndex) (q : Query) :
    stepKeyword idx q (some []) = some [] := by
  unfold stepKeyword
  cases q.keyword with
  | none => rfl
  | some kws => exact keywordFold_empty idx kws

theorem stepArtist_empty (idx : CardSearchIndex) (q : Query) :
    stepArtist idx q (some []) = some [] := by
  unfold stepArtist
  cases strOpt q.artist with
  | none => rfl
  | some a => exact combineIds_empty _

theorem sortResults_nil (sb ord : String) : sortResults [] sb ord = [] := by
  simp [sortResults]

theorem search_eq_nil (idx : CardSearchIndex) (q : Query)
    (h : searchIds idx q = some []) : search idx q = [] := by
  unfold search
  rw [h]
  cases strOpt q.sortBy <;> cases q.limit <;> simp [sortResults_nil]

/-- C5 (amended): an unrecognized query field name is not read by
`search` at all, and no filter value ever raises an error; but an
unrecognized `set`, `format`, or `keyword` filter value is not treated
as if the filter were absent: it empties the whole result set,
discarding every other filter's contribution. -/
theorem unknown_filter_value_empties (cards : List Card) (q : Query) :
    (∀ v, strOpt q.set = some v →
      (∀ c ∈ cards, lowerStr c.setCode ≠ lowerStr v) →
      search (buildIndex cards) q = [])
  ∧ (∀ f, strOpt q.format = some f →
      (∀ c ∈ cards, ∀ p ∈ c.legal_formats.getD [], p.2 = true → p.1 ≠ lowerStr f) →
      search (buildIndex cards) q = [])
  ∧ (∀ kws kw, q.keyword = some kws → kw ∈ kws →
      (∀ c ∈ cards, ∀ k ∈ c.keywords, lowerStr k ≠ lowerStr kw) →
      search (buildIndex cards) q = []) := by
  refine ⟨?_, ?_, ?_⟩
  · intro v hv hnone
    apply search_eq_nil
    have hlook : alookup (buildIndex cards).setIdx (lowerStr v) = none := by
      rw [none_setIdx]
      intro c hc
      unfold setValues
      by_cases hsc : c.setCode = "" <;> simp [hsc]
      exact fun he => hnone c hc (by rw [he])
    have hset : stepSet (buildIndex cards) q
        (stepRarity (buildIndex cards) q (stepToughness (buildIndex cards) q
          (stepPower (buildIndex cards) q (stepMana (buildIndex cards) q
            (stepColorIdentity (buildIndex cards) q (stepColors (buildIndex cards) q
              (stepType (buildIndex cards) q (stepName (buildIndex cards) q
                (stepText (buildIndex cards) q none))))))))) = some [] := by
      unfold stepSet
      simp only [hv, getFieldIds_set, hlook]
    unfold searchIds
    rw [hset, stepFormat_empty, stepKeyword_empty_acc, stepArtist_empty]
  · intro f hf hnone
    apply search_eq_nil
    have hlook : alookup (buildIndex cards).formatIdx (lowerStr f) = none := by
      rw [none_formatIdx]
      intro c hc
      unfold formatValues
      simp only [List.mem_map, List.mem_filter, not_exists, not_and]
      rintro p ⟨hp, hp2⟩
      exact hnone c hc p hp hp2
    have hfmt : ∀ acc, stepFormat (buildIndex cards) q acc = some [] := by
      intro acc
      unfold stepFormat
      simp only [hf, getFieldIds_format, hlook]
    unfold searchIds
    rw [hfmt, stepKeyword_empty_acc, stepArtist_empty]
  · intro kws kw hkws hkw hnone
    apply search_eq_nil
    have hlook : alookup (buildIndex cards).keywordIdx (lowerStr kw) = none := by
      rw [none_keywordIdx]
      intro c hc
      unfold keywordValues
      simp only [List.mem_map, not_exists, not_and]
      intro k hk
      exact hnone c hc k hk
    have hkey : ∀ acc, stepKeyword (buildIndex cards) q acc = some [] := by
      intro acc
      unfold stepKeyword
      rw [hkws]
      clear hkws
      induction kws generalizing acc with
      | nil => cases hkw
      | cons kw2 rest ih =>
        simp only [List.foldl_cons]
        rcases List.mem_cons.1 hkw with rfl | hkw2
        · simp only [getFieldIds_keyword, hlook]
          exact keywordFold_empty (buildIndex cards) rest
        · cases hcase : getFieldIds (buildIndex cards) "keyword" (lowerStr kw2) with
          | none => exact keywordFold_empty (buildIndex cards) rest
          | some keyIds => exact ih hkw2 _
    unfold searchIds
    rw [hkey, stepArtist_empty]

/-- C5 counterexample: over a one-relevant-card corpus printed in set
`abc`, the query `{set: "zzz"}` (an unindexed set code) returns the
empty list, while treating the unrecognized value as absent would
return the full corpus (as the empty query does); so an unrecognized
filter value is not ignored, it shrinks the result to nothing. -/
theorem unknown_set_value_counterexample :
    search idxSet { set := some "zzz" } = []
  ∧ search idxSet {} = [cardS1, cardS2]
  ∧ search idxSet { set := some "abc" } = [cardS1, cardS2] := by
  exact ⟨by decide, by decide, by decide⟩

/-! ## C9: pagination -/

/-- C9: pagination applies only when `limit` is defined: with `limit`
undefined the `offset` field is ignored and `search` returns the full
(optionally sorted) result list; with `limit` defined the slice
`[offset || 0, offset + limit)` of that list is returned, taken after
sorting. -/
theorem search_pagination (idx : CardSearchIndex) (q : Query) :
    (∀ o, search idx { q with limit := none, offset := o } =
      search idx { q with limit := none, offset := none })
  ∧ (∀ l, search idx { q with limit := some l } =
      ((search idx { q with limit := none, offset := none }).drop (q.offset.getD 0)).take l) := by
  cases q
  exact ⟨fun o => rfl, fun l => rfl⟩


/-- Witness: `searchRarity_spec` applied to a concrete two-card corpus,
at the id the `rarity >= rare` search returns. -/
theorem searchRarity_spec_witness :
    cardS1.rarity ≠ "common" ∧ cardS1.rarity ≠ "uncommon" :=
  (searchRarity_spec [cardS1, cardS2] (by decide) "rare" ">=" "s1").1
    (by decide) cardS1 (by decide) (by decide)

/-- Witness: `unknown_filter_value_empties` applied to a concrete corpus
and three concrete unrecognized filter values. -/
theorem unknown_filter_value_witness :
    search (buildIndex [cardS1, cardS2]) { set := some "zzz" } = []
  ∧ search (buildIndex [cardS1, cardS2]) { format := some "weird" } = []
  ∧ search (buildIndex [cardS1, cardS2]) { keyword := some ["nope"] } = [] :=
  ⟨(unknown_filter_value_empties [cardS1, cardS2] { set := some "zzz" }).1
      "zzz" rfl (by decide),
   (unknown_filter_value_empties [cardS1, cardS2] { format := some "weird" }).2.1
      "weird" rfl (by decide),
   (unknown_filter_value_empties [cardS1, cardS2] { keyword := some ["nope"] }).2.2
      ["nope"] "nope" rfl (by decide) (by decide)⟩


/-! ## Deck sampler: bookkeeping lemmas -/

theorem alookup_aset_self {α : Type} (m : List (String × α)) (k : String) (v : α) :
    alookup (aset m k v) k = some v := by
  induction m with
  | nil => simp [aset, alookup]
  | cons p rest ih =>
    obtain ⟨k0, v0⟩ := p
    by_cases h : k0 = k
    · simp [aset, alookup, h]
    · simp [aset, alookup, h, ih]

theorem alookup_aset_ne {α : Type} (m : List (String × α)) (k : String) (v : α)
    (k2 : String) (h : k2 ≠ k) : alookup (aset m k v) k2 = alookup m k2 := by
  have hk : ¬ k = k2 := fun e => h e.symm
  induction m with
  | nil => simp [aset, alookup, hk]
  | cons p rest ih =>
    obtain ⟨k0, v0⟩ := p
    by_cases h0 : k0 = k
    · subst h0
      simp [aset, alookup, hk]
    · by_cases h2 : k0 = k2 <;> simp [aset, alookup, h0, h2, ih, h]

theorem updateFirstEntry_ids (deck : List DeckEntry) (cid : String) (n : Nat) :
    (updateFirstEntry deck cid n).map (fun e => e.card.id) =
      deck.map (fun e => e.card.id) := by
  induction deck with
  | nil => rfl
  | cons e rest ih =>
    by_cases h : e.card.id = cid <;> simp [updateFirstEntry, h, ih]

theorem mem_updateFirstEntry {deck : List DeckEntry} {cid : String} {n : Nat} {e : DeckEntry}
    (h : e ∈ updateFirstEntry deck cid n) :
    e ∈ deck ∨ ∃ e0, e0 ∈ deck ∧ e0.card.id = cid ∧ e = { e0 with count := e0.count + n } := by
  induction deck with
  | nil => simp [updateFirstEntry] at h
  | cons e1 rest ih =>
    by_cases h1 : e1.card.id = cid
    · simp only [updateFirstEntry, if_pos h1] at h
      rcases List.mem_cons.1 h with rfl | h
      · exact Or.inr ⟨e1, List.mem_cons_self e1 rest, h1, rfl⟩
      · exact Or.inl (List.mem_cons_of_mem e1 h)
    · simp only [updateFirstEntry, if_neg h1] at h
      rcases List.mem_cons.1 h with rfl | h
      · exact Or.inl (List.mem_cons_self e rest)
      · rcases ih h with h | ⟨e0, he0, hid, he⟩
        · exact Or.inl (List.mem_cons_of_mem e1 h)
        · exact Or.inr ⟨e0, List.mem_cons_of_mem e1 he0, hid, he⟩

theorem hasEntryFor_false_iff {deck : List DeckEntry} {cid : String} :
    hasEntryFor deck cid = false ↔ ∀ e ∈ deck, e.card.id ≠ cid := by
  unfold hasEntryFor
  rw [← Bool.not_eq_true, List.any_eq_true]
  simp


/-! ## addCardToDeck characterization -/

theorem addCardToDeck_zero (deck : List DeckEntry) {card : Card} {st : DeckState}
    {cons : Constraints} {r : Rng} (h : (copiesFor card st cons r).1 = 0) :
    (addCardToDeck deck card st cons r).1 = deck ∧
    (addCardToDeck deck card st cons r).2.1 = st := by
  unfold addCardToDeck
  rw [if_pos h]
  exact ⟨rfl, rfl⟩

theorem addCardToDeck_deck_shape (deck : List DeckEntry) (card : Card) (st : DeckState)
    (cons : Constraints) (r : Rng) :
    (addCardToDeck deck card st cons r).1 = deck ∨
    (1 ≤ (copiesFor card st cons r).1 ∧
     ((hasEntryFor deck card.id = true ∧
        (addCardToDeck deck card st cons r).1 =
          updateFirstEntry deck card.id (copiesFor card st cons r).1) ∨
      (hasEntryFor deck card.id = false ∧
        (addCardToDeck deck card st cons r).1 =
          deck ++ [{ card := card, count := (copiesFor card st cons r).1 }]))) := by
  by_cases h0 : (copiesFor card st cons r).1 = 0
  · exact Or.inl (addCardToDeck_zero deck h0).1
  · refine Or.inr ⟨Nat.one_le_iff_ne_zero.2 h0, ?_⟩
    unfold addCardToDeck
    rw [if_neg h0]
    by_cases hh : hasEntryFor deck card.id
    · exact Or.inl ⟨hh, by simp [hh]⟩
    · refine Or.inr ⟨Bool.eq_false_iff.2 hh, ?_⟩
      simp [hh]

theorem addCardToDeck_st_shape (deck : List DeckEntry) (card : Card) (st : DeckState)
    (cons : Constraints) (r : Rng) (h : (copiesFor card st cons r).1 ≠ 0) :
    (addCardToDeck deck card st cons r).2.1.cardCounts =
      aset st.cardCounts card.name
        ((alookup st.cardCounts card.name).getD 0 + (copiesFor card st cons r).1) ∧
    (addCardToDeck deck card st cons r).2.1.byCategory =
      aset st.byCategory (categorizeCard card)
        ((alookup st.byCategory (categorizeCard card)).getD 0 + (copiesFor card st cons r).1) := by
  unfold addCardToDeck
  rw [if_neg h]
  by_cases hc : categorizeCard card ≠ "land" <;> simp [hc]

/-! ## C10: one entry per card id -/

theorem addCardToDeck_nodup {deck : List DeckEntry} {card : Card} {st : DeckState}
    {cons : Constraints} {r : Rng}
    (h : (deck.map (fun e => e.card.id)).Nodup) :
    ((addCardToDeck deck card st cons r).1.map (fun e => e.card.id)).Nodup := by
  rcases addCardToDeck_deck_shape deck card st cons r with he | ⟨_, ⟨_, he⟩ | ⟨hf, he⟩⟩
  · rw [he]; exact h
  · rw [he, updateFirstEntry_ids]; exact h
  · rw [he, List.map_append, List.nodup_append]
    refine ⟨h, by simp, ?_⟩
    intro x hx hx2
    simp only [List.map_cons, List.map_nil, List.mem_singleton] at hx2
    obtain ⟨e, he2, rfl⟩ := List.mem_map.1 hx
    exact (hasEntryFor_false_iff.1 hf e he2) (by simpa using hx2)

theorem seedMustInclude_nodup (cons : Constraints) (nonLands lands : List Card) :
    ∀ (names : List String) (deck : List DeckEntry) (st : DeckState) (r : Rng),
      (deck.map (fun e => e.card.id)).Nodup →
      ((seedMustInclude cons nonLands lands names deck st r).1.map (fun e => e.card.id)).Nodup := by
  intro names
  induction names with
  | nil => intro deck st r h; exact h
  | cons nm rest ih =>
    intro deck st r h
    simp only [seedMustInclude]
    apply ih
    cases hfind : (match nonLands.find? (fun c => lowerStr c.name = lowerStr nm) with
      | some c => some c
      | none => lands.find? (fun c => lowerStr c.name = lowerStr nm)) with
    | none => simpa [hfind] using h
    | some c =>
      simp only [hfind]
      by_cases hv : isCardValid c cons st
      · simpa [hv] using addCardToDeck_nodup h
      · simpa [hv] using h

theorem addLands_nodup (cons : Constraints) (targetLands : Nat) :
    ∀ (cards : List Card) (deck : List DeckEntry) (st : DeckState) (r : Rng),
      (deck.map (fun e => e.card.id)).Nodup →
      ((addLands cons targetLands cards deck st r).1.map (fun e => e.card.id)).Nodup := by
  intro cards
  induction cards with
  | nil => intro deck st r h; exact h
  | cons land rest ih =>
    intro deck st r h
    simp only [addLands]
    by_cases hb : landBreak st targetLands
    · simpa [hb] using h
    · simp only [hb, if_false]
      apply ih
      by_cases hv : isCardValid land cons st
      · simpa [hv] using addCardToDeck_nodup h
      · simpa [hv] using h

theorem addNonLands_nodup (cons : Constraints) :
    ∀ (cards : List Card) (deck : List DeckEntry) (st : DeckState) (r : Rng),
      (deck.map (fun e => e.card.id)).Nodup →
      ((addNonLands cons cards deck st r).1.map (fun e => e.card.id)).Nodup := by
  intro cards
  induction cards with
  | nil => intro deck st r h; exact h
  | cons card rest ih =>
    intro deck st r h
    simp only [addNonLands]
    by_cases hb : deckTotal deck ≥ cons.deckSize
    · simpa [hb] using h
    · simp only [hb, if_false]
      apply ih
      by_cases hv : isCardValid card cons st
      · simpa [hv] using addCardToDeck_nodup h
      · simpa [hv] using h

theorem generateRandomDeck_nodup (candidates : List Card) (c : ConstraintsInput) (r : Rng) :
    ((generateRandomDeck candidates c r).deck.map (fun e => e.card.id)).Nodup := by
  unfold generateRandomDeck
  apply addNonLands_nodup
  apply addLands_nodup
  apply seedMustInclude_nodup
  exact List.nodup_nil

/-- C10: every deck produced by `generateRandomDeck` (and hence the 99
sampled entries of a `generateCommanderDeck` deck, i.e. everything after
the prepended commander) carries at most one entry per card id: a card
accepted again is merged into its existing entry rather than creating a
second entry. -/
theorem deck_one_entry_per_id :
    (∀ (candidates : List Card) (c : ConstraintsInput) (r : Rng),
      ((generateRandomDeck candidates c r).deck.map (fun e => e.card.id)).Nodup)
  ∧ (∀ (idx : CardSearchIndex) (commander : Card) (extra : ConstraintsInput) (r : Rng),
      (((generateCommanderDeck idx commander extra r).deck.tail).map (fun e => e.card.id)).Nodup) := by
  refine ⟨generateRandomDeck_nodup, ?_⟩
  intro idx commander extra r
  unfold generateCommanderDeck
  exact generateRandomDeck_nodup _ _ _


/-! ## C4: the copy limit -/

theorem copiesFor_nonbasic_le {card : Card} (st : DeckState) {cons : Constraints} (r : Rng)
    (h : isBasicLand card = false) (hmc : 1 < cons.maxCopies) :
    (copiesFor card st cons r).1 ≤
      cons.maxCopies - (alookup st.cardCounts card.name).getD 0 := by
  unfold copiesFor
  simp only [h, Bool.false_eq_true, if_false, if_pos hmc]
  exact min_le_right _ _

theorem addCardToDeck_copyInv {cands : List Card} {cons : Constraints}
    (huniq : ∀ c1 ∈ cands, ∀ c2 ∈ cands, c1.id = c2.id → c1 = c2)
    (hmc : 1 < cons.maxCopies)
    {deck : List DeckEntry} {st : DeckState} {card : Card} {r : Rng}
    (hcard : card ∈ cands)
    (hfrom : ∀ e ∈ deck, e.card ∈ cands)
    (hcnt : ∀ e ∈ deck, e.count ≤ (alookup st.cardCounts e.card.name).getD 0)
    (hmax : ∀ e ∈ deck, isBasicLand e.card = false → e.count ≤ cons.maxCopies) :
    (∀ e ∈ (addCardToDeck deck card st cons r).1, e.card ∈ cands) ∧
    (∀ e ∈ (addCardToDeck deck card st cons r).1,
      e.count ≤ (alookup (addCardToDeck deck card st cons r).2.1.cardCounts e.card.name).getD 0) ∧
    (∀ e ∈ (addCardToDeck deck card st cons r).1,
      isBasicLand e.card = false → e.count ≤ cons.maxCopies) := by
  by_cases h0 : (copiesFor card st cons r).1 = 0
  · obtain ⟨hd, hs⟩ := addCardToDeck_zero deck h0
    rw [hd, hs]
    exact ⟨hfrom, hcnt, hmax⟩
  · obtain ⟨hcc, _hbc⟩ := addCardToDeck_st_shape deck card st cons r h0
    have hnn : 1 ≤ (copiesFor card st cons r).1 := Nat.one_le_iff_ne_zero.2 h0
    -- the new per-name count at the card's own name
    have hself : (alookup (addCardToDeck deck card st cons r).2.1.cardCounts card.name).getD 0 =
        (alookup st.cardCounts card.name).getD 0 + (copiesFor card st cons r).1 := by
      rw [hcc, alookup_aset_self]
      rfl
    have hother : ∀ nm, nm ≠ card.name →
        alookup (addCardToDeck deck card st cons r).2.1.cardCounts nm = alookup st.cardCounts nm := by
      intro nm hnm
      rw [hcc, alookup_aset_ne _ _ _ _ hnm]
    -- count monotonicity for entries already present
    have hcnt2 : ∀ e ∈ deck, e.count ≤
        (alookup (addCardToDeck deck card st cons r).2.1.cardCounts e.card.name).getD 0 := by
      intro e he
      by_cases hnm : e.card.name = card.name
      · rw [hnm, hself]
        calc e.count ≤ (alookup st.cardCounts e.card.name).getD 0 := hcnt e he
          _ = (alookup st.cardCounts card.name).getD 0 := by rw [hnm]
          _ ≤ _ := Nat.le_add_right _ _
      · rw [hother _ hnm]
        exact hcnt e he
    rcases addCardToDeck_deck_shape deck card st cons r with he | ⟨_, ⟨_hhas, he⟩ | ⟨hhas, he⟩⟩
    · rw [he]
      refine ⟨hfrom, ?_, hmax⟩
      intro e hee
      exact hcnt2 e hee
    · rw [he]
      refine ⟨?_, ?_, ?_⟩
      · intro e hee
        rcases mem_updateFirstEntry hee with hee | ⟨e0, he0, _, rfl⟩
        · exact hfrom e hee
        · exact hfrom e0 he0
      · intro e hee
        rcases mem_updateFirstEntry hee with hee | ⟨e0, he0, hid, rfl⟩
        · exact hcnt2 e hee
        · have hceq : e0.card = card := huniq e0.card (hfrom e0 he0) card hcard hid
          show e0.count + (copiesFor card st cons r).1 ≤ _
          have : ({ e0 with count := e0.count + (copiesFor card st cons r).1 } : DeckEntry).card = e0.card := rfl
          rw [this, hceq, hself]
          have h1 := hcnt e0 he0
          rw [hceq] at h1
          omega
      · intro e hee hb
        rcases mem_updateFirstEntry hee with hee | ⟨e0, he0, hid, rfl⟩
        · exact hmax e hee hb
        · have hceq : e0.card = card := huniq e0.card (hfrom e0 he0) card hcard hid
          have hbc : isBasicLand card = false := by
            have : ({ e0 with count := e0.count + (copiesFor card st cons r).1 } : DeckEntry).card = e0.card := rfl
            rw [this, hceq] at hb
            exact hb
          have hle := copiesFor_nonbasic_le st r hbc hmc
          have h1 := hcnt e0 he0
          rw [hceq] at h1
          show e0.count + (copiesFor card st cons r).1 ≤ cons.maxCopies
          omega
    · rw [he]
      refine ⟨?_, ?_, ?_⟩
      · intro e hee
        rcases List.mem_append.1 hee with hee | hee
        · exact hfrom e hee
        · rcases List.mem_singleton.1 hee with rfl
          exact hcard
      · intro e hee
        rcases List.mem_append.1 hee with hee | hee
        · exact hcnt2 e hee
        · rcases List.mem_singleton.1 hee with rfl
          show (copiesFor card st cons r).1 ≤ _
          rw [show ({ card := card, count := (copiesFor card st cons r).1 } : DeckEntry).card = card from rfl]
          rw [hself]
          omega
      · intro e hee hb
        rcases List.mem_append.1 hee with hee | hee
        · exact hmax e hee hb
        · rcases List.mem_singleton.1 hee with rfl
          have hbc : isBasicLand card = false := hb
          have hle := copiesFor_nonbasic_le st r hbc hmc
          show (copiesFor card st cons r).1 ≤ cons.maxCopies
          omega


theorem mem_swapL {α : Type} {l : List α} {i j : Nat} {x : α}
    (h : x ∈ swapL l i j) : x ∈ l := by
  unfold swapL at h
  cases hi : l.get? i with
  | none => rw [hi] at h; exact h
  | some a =>
    cases hj : l.get? j with
    | none => rw [hi, hj] at h; exact h
    | some b =>
      rw [hi, hj] at h
      rcases List.mem_or_eq_of_mem_set h with h2 | rfl
      · rcases List.mem_or_eq_of_mem_set h2 with h3 | rfl
        · exact h3
        · exact List.get?_mem hj
      · exact List.get?_mem hi

theorem mem_shuffleAux {α : Type} :
    ∀ (n : Nat) (l : List α) (r : Rng) (x : α), x ∈ (shuffleAux n l r).1 → x ∈ l := by
  intro n
  induction n with
  | zero => intro l r x h; exact h
  | succ i ih =>
    intro l r x h
    exact mem_swapL (ih _ _ _ h)

theorem mem_shuffle {α : Type} {r : Rng} {l : List α} {x : α}
    (h : x ∈ (shuffle r l).1) : x ∈ l :=
  mem_shuffleAux _ l r x h

theorem seedMustInclude_copyInv {cands : List Card} {cons : Constraints}
    (huniq : ∀ c1 ∈ cands, ∀ c2 ∈ cands, c1.id = c2.id → c1 = c2)
    (hmc : 1 < cons.maxCopies)
    {nonLands lands : List Card}
    (hnl : ∀ c2 ∈ nonLands, c2 ∈ cands) (hl : ∀ c2 ∈ lands, c2 ∈ cands) :
    ∀ (names : List String) (deck : List DeckEntry) (st : DeckState) (r : Rng),
      (∀ e ∈ deck, e.card ∈ cands) →
      (∀ e ∈ deck, e.count ≤ (alookup st.cardCounts e.card.name).getD 0) →
      (∀ e ∈ deck, isBasicLand e.card = false → e.count ≤ cons.maxCopies) →
      (∀ e ∈ (seedMustInclude cons nonLands lands names deck st r).1, e.card ∈ cands) ∧
      (∀ e ∈ (seedMustInclude cons nonLands lands names deck st r).1,
        e.count ≤ (alookup (seedMustInclude cons nonLands lands names deck st r).2.1.cardCounts
          e.card.name).getD 0) ∧
      (∀ e ∈ (seedMustInclude cons nonLands lands names deck st r).1,
        isBasicLand e.card = false → e.count ≤ cons.maxCopies) := by
  intro names
  induction names with
  | nil => intro deck st r h1 h2 h3; exact ⟨h1, h2, h3⟩
  | cons nm rest ih =>
    intro deck st r h1 h2 h3
    simp only [seedMustInclude]
    cases hfind : (match nonLands.find? (fun c => lowerStr c.name = lowerStr nm) with
      | some c => some c
      | none => lands.find? (fun c => lowerStr c.name = lowerStr nm)) with
    | none =>
      simp only [hfind]
      exact ih deck st r h1 h2 h3
    | some c =>
      have hc : c ∈ cands := by
        rcases hf2 : nonLands.find? (fun cd => lowerStr cd.name = lowerStr nm) with _ | c2
        · rw [hf2] at hfind
          exact hl c (List.mem_of_find?_eq_some hfind)
        · rw [hf2] at hfind
          cases hfind
          exact hnl c (List.mem_of_find?_eq_some hf2)
      simp only [hfind]
      by_cases hv : isCardValid c cons st
      · simp only [hv, if_true]
        obtain ⟨j1, j2, j3⟩ := addCardToDeck_copyInv huniq hmc hc h1 h2 h3 (r := r)
        exact ih _ _ _ j1 j2 j3
      · simp only [hv, if_false]
        exact ih deck st r h1 h2 h3

theorem addLands_copyInv {cands : List Card} {cons : Constraints}
    (huniq : ∀ c1 ∈ cands, ∀ c2 ∈ cands, c1.id = c2.id → c1 = c2)
    (hmc : 1 < cons.maxCopies) (targetLands : Nat) :
    ∀ (cards : List Card), (∀ c2 ∈ cards, c2 ∈ cands) →
    ∀ (deck : List DeckEntry) (st : DeckState) (r : Rng),
      (∀ e ∈ deck, e.card ∈ cands) →
      (∀ e ∈ deck, e.count ≤ (alookup st.cardCounts e.card.name).getD 0) →
      (∀ e ∈ deck, isBasicLand e.card = false → e.count ≤ cons.maxCopies) →
      (∀ e ∈ (addLands cons targetLands cards deck st r).1, e.card ∈ cands) ∧
      (∀ e ∈ (addLands cons targetLands cards deck st r).1,
        e.count ≤ (alookup (addLands cons targetLands cards deck st r).2.1.cardCounts
          e.card.name).getD 0) ∧
      (∀ e ∈ (addLands cons targetLands cards deck st r).1,
        isBasicLand e.card = false → e.count ≤ cons.maxCopies) := by
  intro cards
  induction cards with
  | nil => intro _ deck st r h1 h2 h3; exact ⟨h1, h2, h3⟩
  | cons land rest ih =>
    intro hsrc deck st r h1 h2 h3
    have hland : land ∈ cands := hsrc land (List.mem_cons_self land rest)
    have hrest : ∀ c2 ∈ rest, c2 ∈ cands := fun c2 hc2 => hsrc c2 (List.mem_cons_of_mem land hc2)
    simp only [addLands]
    by_cases hb : landBreak st targetLands
    · simp only [hb, if_true]
      exact ⟨h1, h2, h3⟩
    · simp only [hb, if_false]
      by_cases hv : isCardValid land cons st
      · simp only [hv, if_true]
        obtain ⟨j1, j2, j3⟩ := addCardToDeck_copyInv huniq hmc hland h1 h2 h3 (r := r)
        exact ih hrest _ _ _ j1 j2 j3
      · simp only [hv, if_false]
        exact ih hrest deck st r h1 h2 h3

theorem addNonLands_copyInv {cands : List Card} {cons : Constraints}
    (huniq : ∀ c1 ∈ cands, ∀ c2 ∈ cands, c1.id = c2.id → c1 = c2)
    (hmc : 1 < cons.maxCopies) :
    ∀ (cards : List Card), (∀ c2 ∈ cards, c2 ∈ cands) →
    ∀ (deck : List DeckEntry) (st : DeckState) (r : Rng),
      (∀ e ∈ deck, e.card ∈ cands) →
      (∀ e ∈ deck, e.count ≤ (alookup st.cardCounts e.card.name).getD 0) →
      (∀ e ∈ deck, isBasicLand e.card = false → e.count ≤ cons.maxCopies) →
      (∀ e ∈ (addNonLands cons cards deck st r).1, e.card ∈ cands) ∧
      (∀ e ∈ (addNonLands cons cards deck st r).1,
        e.count ≤ (alookup (addNonLands cons cards deck st r).2.1.cardCounts
          e.card.name).getD 0) ∧
      (∀ e ∈ (addNonLands cons cards deck st r).1,
        isBasicLand e.card = false → e.count ≤ cons.maxCopies) := by
  intro cards
  induction cards with
  | nil => intro _ deck st r h1 h2 h3; exact ⟨h1, h2, h3⟩
  | cons card rest ih =>
    intro hsrc deck st r h1 h2 h3
    have hcard : card ∈ cands := hsrc card (List.mem_cons_self card rest)
    have hrest : ∀ c2 ∈ rest, c2 ∈ cands := fun c2 hc2 => hsrc c2 (List.mem_cons_of_mem card hc2)
    simp only [addNonLands]
    by_cases hb : deckTotal deck ≥ cons.deckSize
    · simp only [hb, if_true]
      exact ⟨h1, h2, h3⟩
    · simp only [hb, if_false]
      by_cases hv : isCardValid card cons st
      · simp only [hv, if_true]
        obtain ⟨j1, j2, j3⟩ := addCardToDeck_copyInv huniq hmc hcard h1 h2 h3 (r := r)
        exact ih hrest _ _ _ j1 j2 j3
      · simp only [hv, if_false]
        exact ih hrest deck st r h1 h2 h3

/-- C4: in every deck generated for a non-singleton configuration
(validated `maxCopies > 1`), over a candidate pool in which the id
determines the card, every entry whose card is not a basic land ends
with a count of at most the configured `maxCopies`, regardless of how
often the card is picked (must-include seeding included). -/
theorem copy_limit_law (candidates : List Card) (c : ConstraintsInput) (r : Rng)
    (huniq : ∀ c1 ∈ candidates, ∀ c2 ∈ candidates, c1.id = c2.id → c1 = c2)
    (hmc : 1 < (validateConstraints c).maxCopies) :
    ∀ e ∈ (generateRandomDeck candidates c r).deck,
      isBasicLand e.card = false →
      e.count ≤ (generateRandomDeck candidates c r).constraints.maxCopies := by
  have hlands : ∀ c2 ∈ candidates.filter (fun cd => categorizeCard cd = "land"), c2 ∈ candidates :=
    fun c2 hc2 => (List.mem_filter.1 hc2).1
  have hnonlands : ∀ c2 ∈ candidates.filter (fun cd => categorizeCard cd ≠ "land"), c2 ∈ candidates :=
    fun c2 hc2 => (List.mem_filter.1 hc2).1
  show ∀ e ∈ (generateRandomDeck candidates c r).deck,
      isBasicLand e.card = false → e.count ≤ (validateConstraints c).maxCopies
  unfold generateRandomDeck
  obtain ⟨s1a, s1b, s1c⟩ := seedMustInclude_copyInv huniq hmc hnonlands hlands
    (validateConstraints c).mustInclude [] {} r (by simp) (by simp) (by simp)
  obtain ⟨s2a, s2b, s2c⟩ := addLands_copyInv huniq hmc _ _
    (fun c2 hc2 => hlands c2 (mem_shuffle hc2)) _ _ _ s1a s1b s1c
  obtain ⟨_s3a, _s3b, s3c⟩ := addNonLands_copyInv huniq hmc _
    (fun c2 hc2 => hnonlands c2 (mem_shuffle hc2)) _ _ _ s2a s2b s2c
  exact s3c


/-- Witness: `copy_limit_law` applied to a concrete pool, constraints and
random stream, at the single entry of the generated deck. -/
theorem copy_limit_witness :
    ({ card := cardBolt, count := 4 } : DeckEntry).count ≤
      (generateRandomDeck [cardBolt] consSmall rng4).constraints.maxCopies :=
  copy_limit_law [cardBolt] consSmall rng4 (by decide) (by decide)
    { card := cardBolt, count := 4 } (by decide) (by decide)

/-- C3 counterexample.  Scenario A: a pool with no lands at all fills the
deck entirely with non-lands; the land count (0) is below `minLands`
(2), yet the deck reaches the full target size (4 of 4) and is marked
valid — contradicting the claimed exception that such decks fall below
the target with `valid = false`.  Scenario B: a non-basic multi-copy
land overshoots: the land count (4) exceeds `maxLands` (2) while the
deck again reaches full size and is valid. -/
theorem land_bound_counterexample :
    (deckLandTotal (generateRandomDeck [cardBolt] consSmall rng4).deck = 0
  ∧ (generateRandomDeck [cardBolt] consSmall rng4).constraints.minLands = 2
  ∧ (generateRandomDeck [cardBolt] consSmall rng4).stats.totalCards = 4
  ∧ (generateRandomDeck [cardBolt] consSmall rng4).constraints.deckSize = 4
  ∧ (generateRandomDeck [cardBolt] consSmall rng4).valid = true)
  ∧ (deckLandTotal (generateRandomDeck [cardLandX, cardBolt] consSix rng4).deck = 4
  ∧ (generateRandomDeck [cardLandX, cardBolt] consSix rng4).constraints.maxLands = 2
  ∧ (generateRandomDeck [cardLandX, cardBolt] consSix rng4).stats.totalCards = 8
  ∧ (generateRandomDeck [cardLandX, cardBolt] consSix rng4).constraints.deckSize = 6
  ∧ (generateRandomDeck [cardLandX, cardBolt] consSix rng4).valid = true) := by
  exact ⟨⟨by decide, by decide, by decide, by decide, by decide⟩,
         ⟨by decide, by decide, by decide, by decide, by decide⟩⟩


/-! ## C3: land bounds -/

theorem copiesFor_basic {card : Card} {st : DeckState} {cons : Constraints} {r : Rng}
    (h : isBasicLand card = true) :
    (copiesFor card st cons r).1 =
      min 4 (cons.maxLands - (alookup st.byCategory "land").getD 0) := by
  unfold copiesFor
  simp [h]

theorem landBreak_le {st : DeckState} {t : Nat} (h : landBreak st t = true) :
    t ≤ (alookup st.byCategory "land").getD 0 := by
  unfold landBreak at h
  cases hl : alookup st.byCategory "land" with
  | none => rw [hl] at h; cases h
  | some v => rw [hl] at h; simpa using h

theorem addCardToDeck_land_lookup (deck : List DeckEntry) (card : Card) (st : DeckState)
    (cons : Constraints) (r : Rng) :
    (alookup (addCardToDeck deck card st cons r).2.1.byCategory "land").getD 0 =
      (alookup st.byCategory "land").getD 0 +
        (if categorizeCard card = "land" then (copiesFor card st cons r).1 else 0) := by
  by_cases h0 : (copiesFor card st cons r).1 = 0
  · rw [(addCardToDeck_zero deck h0).2, h0]
    simp
  · obtain ⟨_, hbc⟩ := addCardToDeck_st_shape deck card st cons r h0
    rw [hbc]
    by_cases hc : categorizeCard card = "land"
    · rw [hc, alookup_aset_self]
      simp [hc]
    · rw [alookup_aset_ne _ _ _ _ (fun e => hc e.symm)]
      simp [hc]

theorem deckLandTotal_nil : deckLandTotal [] = 0 := rfl

theorem deckLandTotal_cons (e : DeckEntry) (deck : List DeckEntry) :
    deckLandTotal (e :: deck) =
      (if categorizeCard e.card = "land" then e.count else 0) + deckLandTotal deck := by
  unfold deckLandTotal
  rw [List.filter_cons]
  by_cases h : categorizeCard e.card = "land" <;> simp [h]

theorem deckLandTotal_append (deck : List DeckEntry) (e : DeckEntry) :
    deckLandTotal (deck ++ [e]) =
      deckLandTotal deck + (if categorizeCard e.card = "land" then e.count else 0) := by
  induction deck with
  | nil => rw [List.nil_append, deckLandTotal_cons, deckLandTotal_nil]; omega
  | cons e2 rest ih =>
    rw [List.cons_append, deckLandTotal_cons, ih, deckLandTotal_cons]
    omega

theorem hasEntryFor_cons_false {e : DeckEntry} {deck : List DeckEntry} {cid : String}
    (h1 : ¬ e.card.id = cid) (h : hasEntryFor (e :: deck) cid = true) :
    hasEntryFor deck cid = true := by
  simp only [hasEntryFor, List.any_cons] at h ⊢
  rcases Bool.or_eq_true_iff.1 h with h | h
  · exact absurd (of_decide_eq_true h) h1
  · exact h

theorem deckLandTotal_updateFirst {deck : List DeckEntry} {card : Card} {n : Nat}
    (hsame : ∀ e ∈ deck, e.card.id = card.id → e.card = card)
    (hhas : hasEntryFor deck card.id = true) :
    deckLandTotal (updateFirstEntry deck card.id n) =
      deckLandTotal deck + (if categorizeCard card = "land" then n else 0) := by
  induction deck with
  | nil => simp [hasEntryFor] at hhas
  | cons e rest ih =>
    by_cases h1 : e.card.id = card.id
    · have he : e.card = card := hsame e (List.mem_cons_self e rest) h1
      simp only [updateFirstEntry, if_pos h1]
      rw [deckLandTotal_cons, deckLandTotal_cons]
      rw [show ({ e with count := e.count + n } : DeckEntry).card = e.card from rfl]
      rw [he]
      by_cases hc : categorizeCard card = "land" <;> simp [hc] <;> omega
    · simp only [updateFirstEntry, if_neg h1]
      rw [deckLandTotal_cons, deckLandTotal_cons]
      rw [ih (fun e2 he2 hid => hsame e2 (List.mem_cons_of_mem e he2) hid)
        (hasEntryFor_cons_false h1 hhas)]
      omega

theorem addCardToDeck_deckLandTotal {deck : List DeckEntry} {card : Card} {st : DeckState}
    {cons : Constraints} {r : Rng}
    (hsame : ∀ e ∈ deck, e.card.id = card.id → e.card = card) :
    deckLandTotal (addCardToDeck deck card st cons r).1 =
      deckLandTotal deck +
        (if categorizeCard card = "land" then (copiesFor card st cons r).1 else 0) := by
  by_cases h0 : (copiesFor card st cons r).1 = 0
  · rw [(addCardToDeck_zero deck h0).1, h0]
    simp
  · unfold addCardToDeck
    rw [if_neg h0]
    by_cases hh : hasEntryFor deck card.id = true
    · simp only [hh, if_true]
      show deckLandTotal (updateFirstEntry deck card.id (copiesFor card st cons r).1) = _
      exact deckLandTotal_updateFirst hsame hh
    · simp only [hh, if_false]
      show deckLandTotal
        (deck ++ [{ card := card, count := (copiesFor card st cons r).1 }]) = _
      exact deckLandTotal_append deck _

theorem addCardToDeck_INVland {deck : List DeckEntry} {card : Card} {st : DeckState}
    {cons : Constraints} {r : Rng}
    (hsame : ∀ e ∈ deck, e.card.id = card.id → e.card = card)
    (hinv : (alookup st.byCategory "land").getD 0 = deckLandTotal deck) :
    (alookup (addCardToDeck deck card st cons r).2.1.byCategory "land").getD 0 =
      deckLandTotal (addCardToDeck deck card st cons r).1 := by
  rw [addCardToDeck_land_lookup, addCardToDeck_deckLandTotal hsame, hinv]

theorem addCardToDeck_land_le {deck : List DeckEntry} {card : Card} {st : DeckState}
    {cons : Constraints} {r : Rng}
    (hb : categorizeCard card = "land" → isBasicLand card = true)
    (hle : (alookup st.byCategory "land").getD 0 ≤ cons.maxLands) :
    (alookup (addCardToDeck deck card st cons r).2.1.byCategory "land").getD 0 ≤
      cons.maxLands := by
  rw [addCardToDeck_land_lookup]
  by_cases hc : categorizeCard card = "land"
  · rw [if_pos hc, copiesFor_basic (hb hc)]
    have hm := min_le_right 4 (cons.maxLands - (alookup st.byCategory "land").getD 0)
    omega
  · simp [hc, hle]


theorem addCardToDeck_from {cands : List Card} {deck : List DeckEntry} {card : Card}
    {st : DeckState} {cons : Constraints} {r : Rng}
    (hfrom : ∀ e ∈ deck, e.card ∈ cands) (hc : card ∈ cands) :
    ∀ e ∈ (addCardToDeck deck card st cons r).1, e.card ∈ cands := by
  rcases addCardToDeck_deck_shape deck card st cons r with he | ⟨_, ⟨_, he⟩ | ⟨_, he⟩⟩
  · rw [he]; exact hfrom
  · rw [he]
    intro e hee
    rcases mem_updateFirstEntry hee with hee | ⟨e0, he0, _, rfl⟩
    · exact hfrom e hee
    · exact hfrom e0 he0
  · rw [he]
    intro e hee
    rcases List.mem_append.1 hee with hee | hee
    · exact hfrom e hee
    · rcases List.mem_singleton.1 hee with rfl
      exact hc

theorem addLands_land_inv (cands : List Card) (cons : Constraints)
    (huniq : ∀ c1 ∈ cands, ∀ c2 ∈ cands, c1.id = c2.id → c1 = c2) (targetLands : Nat) :
    ∀ (cards : List Card),
      (∀ cd ∈ cards, cd ∈ cands) →
      (∀ cd ∈ cards, categorizeCard cd = "land" → isBasicLand cd = true) →
      ∀ (deck : List DeckEntry) (st : DeckState) (r : Rng),
        (∀ e ∈ deck, e.card ∈ cands) →
        (alookup st.byCategory "land").getD 0 = deckLandTotal deck →
        (alookup st.byCategory "land").getD 0 ≤ cons.maxLands →
        (∀ e ∈ (addLands cons targetLands cards deck st r).1, e.card ∈ cands) ∧
        (alookup (addLands cons targetLands cards deck st r).2.1.byCategory "land").getD 0 =
          deckLandTotal (addLands cons targetLands cards deck st r).1 ∧
        (alookup (addLands cons targetLands cards deck st r).2.1.byCategory "land").getD 0 ≤
          cons.maxLands := by
  intro cards
  induction cards with
  | nil => intro _ _ deck st r h1 h2 h3; exact ⟨h1, h2, h3⟩
  | cons land rest ih =>
    intro hsrc hbas deck st r h1 h2 h3
    have hland : land ∈ cands := hsrc land (List.mem_cons_self land rest)
    have hrest : ∀ cd ∈ rest, cd ∈ cands := fun cd hc => hsrc cd (List.mem_cons_of_mem land hc)
    have hbrest : ∀ cd ∈ rest, categorizeCard cd = "land" → isBasicLand cd = true :=
      fun cd hc => hbas cd (List.mem_cons_of_mem land hc)
    simp only [addLands]
    by_cases hb : landBreak st targetLands
    · simp only [hb, if_true]
      exact ⟨h1, h2, h3⟩
    · simp only [hb, if_false]
      by_cases hv : isCardValid land cons st
      · simp only [hv, if_true]
        have hsame : ∀ e ∈ deck, e.card.id = land.id → e.card = land :=
          fun e he hid => huniq e.card (h1 e he) land hland hid
        exact ih hrest hbrest _ _ _ (addCardToDeck_from h1 hland)
          (addCardToDeck_INVland hsame h2)
          (addCardToDeck_land_le (hbas land (List.mem_cons_self land rest)) h3)
      · simp only [hv, if_false]
        exact ih hrest hbrest deck st r h1 h2 h3

theorem addNonLands_land_inv (cands : List Card) (cons : Constraints)
    (huniq : ∀ c1 ∈ cands, ∀ c2 ∈ cands, c1.id = c2.id → c1 = c2) :
    ∀ (cards : List Card),
      (∀ cd ∈ cards, cd ∈ cands) →
      (∀ cd ∈ cards, categorizeCard cd ≠ "land") →
      ∀ (deck : List DeckEntry) (st : DeckState) (r : Rng),
        (∀ e ∈ deck, e.card ∈ cands) →
        (alookup st.byCategory "land").getD 0 = deckLandTotal deck →
        ((alookup (addNonLands cons cards deck st r).2.1.byCategory "land").getD 0 =
          (alookup st.byCategory "land").getD 0) ∧
        ((alookup (addNonLands cons cards deck st r).2.1.byCategory "land").getD 0 =
          deckLandTotal (addNonLands cons cards deck st r).1) ∧
        (∀ e ∈ (addNonLands cons cards deck st r).1, e.card ∈ cands) := by
  intro cards
  induction cards with
  | nil => intro _ _ deck st r h1 h2; exact ⟨rfl, h2, h1⟩
  | cons card rest ih =>
    intro hsrc hnl deck st r h1 h2
    have hcard : card ∈ cands := hsrc card (List.mem_cons_self card rest)
    have hrest : ∀ cd ∈ rest, cd ∈ cands := fun cd hc => hsrc cd (List.mem_cons_of_mem card hc)
    have hnlrest : ∀ cd ∈ rest, categorizeCard cd ≠ "land" :=
      fun cd hc => hnl cd (List.mem_cons_of_mem card hc)
    simp only [addNonLands]
    by_cases hb : deckTotal deck ≥ cons.deckSize
    · simp only [hb, if_true]
      exact ⟨by trivial, h2, h1⟩
    · simp only [hb, if_false]
      by_cases hv : isCardValid card cons st
      · simp only [hv, if_true]
        have hsame : ∀ e ∈ deck, e.card.id = card.id → e.card = card :=
          fun e he hid => huniq e.card (h1 e he) card hcard hid
        have hcat := hnl card (List.mem_cons_self card rest)
        have hlk := addCardToDeck_land_lookup deck card st cons r
        rw [if_neg hcat, Nat.add_zero] at hlk
        obtain ⟨j1, j2, j3⟩ := ih hrest hnlrest _ _ _ (addCardToDeck_from h1 hcard)
          (addCardToDeck_INVland hsame h2)
        exact ⟨by rw [j1, hlk], j2, j3⟩
      · simp only [hv, if_false]
        exact ih hrest hnlrest deck st r h1 h2

theorem addLands_noBreak (cons : Constraints) (target : Nat) :
    ∀ (cards : List Card) (deck : List DeckEntry) (st : DeckState) (r : Rng),
      (alookup (addLands cons target cards deck st r).2.1.byCategory "land").getD 0 < target →
      addLands cons target cards deck st r = addLandsAllSpec cons cards deck st r := by
  intro cards
  induction cards with
  | nil => intro deck st r _; rfl
  | cons land rest ih =>
    intro deck st r h
    by_cases hb : landBreak st target
    · exfalso
      have hle := landBreak_le hb
      simp only [addLands, hb, if_true] at h
      omega
    · simp only [addLands, addLandsAllSpec, hb, if_false]
      apply ih
      simp only [addLands, hb, if_false] at h
      exact h

theorem randBelow_lt {r : Rng} {n : Nat} (h : n ≠ 0) : (randBelow r n).1 < n := by
  unfold randBelow
  simp only [h, if_false]
  exact Nat.mod_lt _ (Nat.pos_of_ne_zero h)

/-- The must-include seeding loop preserves the land bookkeeping
invariants: seeded cards come from the pool, the `land` counter tracks
the deck's land total, and (all pool lands being basic) it never exceeds
`maxLands`. -/
theorem seedMustInclude_land_inv (cands : List Card) (cons : Constraints)
    (huniq : ∀ c1 ∈ cands, ∀ c2 ∈ cands, c1.id = c2.id → c1 = c2)
    (nonLands lands : List Card)
    (hnl : ∀ c2 ∈ nonLands, c2 ∈ cands) (hl : ∀ c2 ∈ lands, c2 ∈ cands)
    (hbasic : ∀ cd ∈ cands, categorizeCard cd = "land" → isBasicLand cd = true) :
    ∀ (names : List String) (deck : List DeckEntry) (st : DeckState) (r : Rng),
      (∀ e ∈ deck, e.card ∈ cands) →
      (alookup st.byCategory "land").getD 0 = deckLandTotal deck →
      (alookup st.byCategory "land").getD 0 ≤ cons.maxLands →
      (∀ e ∈ (seedMustInclude cons nonLands lands names deck st r).1, e.card ∈ cands) ∧
      (alookup (seedMustInclude cons nonLands lands names deck st r).2.1.byCategory
        "land").getD 0 =
        deckLandTotal (seedMustInclude cons nonLands lands names deck st r).1 ∧
      (alookup (seedMustInclude cons nonLands lands names deck st r).2.1.byCategory
        "land").getD 0 ≤ cons.maxLands := by
  intro names
  induction names with
  | nil => intro deck st r h1 h2 h3; exact ⟨h1, h2, h3⟩
  | cons nm rest ih =>
    intro deck st r h1 h2 h3
    simp only [seedMustInclude]
    cases hfind : (match nonLands.find? (fun c => lowerStr c.name = lowerStr nm) with
      | some c => some c
      | none => lands.find? (fun c => lowerStr c.name = lowerStr nm)) with
    | none =>
      simp only [hfind]
      exact ih deck st r h1 h2 h3
    | some c =>
      have hc : c ∈ cands := by
        rcases hf2 : nonLands.find? (fun cd => lowerStr cd.name = lowerStr nm) with _ | c2
        · rw [hf2] at hfind
          exact hl c (List.mem_of_find?_eq_some hfind)
        · rw [hf2] at hfind
          cases hfind
          exact hnl c (List.mem_of_find?_eq_some hf2)
      simp only [hfind]
      by_cases hv : isCardValid c cons st
      · simp only [hv, if_true]
        have hsame : ∀ e ∈ deck, e.card.id = c.id → e.card = c :=
          fun e he hid => huniq e.card (h1 e he) c hc hid
        exact ih _ _ _ (addCardToDeck_from h1 hc) (addCardToDeck_INVland hsame h2)
          (addCardToDeck_land_le (hbasic c hc) h3)
      · simp only [hv, if_false]
        exact ih deck st r h1 h2 h3

/-- The deck of `generateRandomDeck`, written through the pipeline-stage
definitions: the non-land loop continues from the land phase, which
continues from the must-include seeding. -/
theorem generateRandomDeck_deck_eq (candidates : List Card) (c : ConstraintsInput) (r : Rng) :
    (generateRandomDeck candidates c r).deck =
      (addNonLands (validateConstraints c)
        (shuffle (grdLandPhase candidates c r).2.2 (grdNonLands candidates)).1
        (grdLandPhase candidates c r).1 (grdLandPhase candidates c r).2.1
        (shuffle (grdLandPhase candidates c r).2.2 (grdNonLands candidates)).2).1 := rfl

/-- C3 (amended): over a candidate pool whose card ids determine their
cards and all of whose lands are basic lands, the land count of a
generated deck never exceeds `maxLands` (must-include seeding included:
seeded basic lands also respect the cap); and the only way the land
count ends below the chosen target (in particular below `minLands`) is
that the land phase consumed the entire shuffled land pool without
reaching the target — "the pool could not supply enough lands".  The
original exception clause is not restored: a land-short deck may still
reach the full target size through non-lands and be marked valid (see
the counterexample). -/
theorem land_bound_amended (candidates : List Card) (c : ConstraintsInput) (r : Rng)
    (huniq : ∀ c1 ∈ candidates, ∀ c2 ∈ candidates, c1.id = c2.id → c1 = c2)
    (hbasic : ∀ cd ∈ candidates, categorizeCard cd = "land" → isBasicLand cd = true) :
    deckLandTotal (generateRandomDeck candidates c r).deck ≤
      (generateRandomDeck candidates c r).constraints.maxLands
  ∧ (∀ (cards : List Card) (deck : List DeckEntry) (st : DeckState) (r2 : Rng) (target : Nat),
      (alookup (addLands (validateConstraints c) target cards deck st r2).2.1.byCategory
        "land").getD 0 < target →
      addLands (validateConstraints c) target cards deck st r2 =
        addLandsAllSpec (validateConstraints c) cards deck st r2)
  ∧ (deckLandTotal (generateRandomDeck candidates c r).deck <
        (generateRandomDeck candidates c r).constraints.minLands →
      grdLandPhase candidates c r =
        addLandsAllSpec (validateConstraints c) (grdShuffledLands candidates c r).1
          (grdSeed candidates c r).1 (grdSeed candidates c r).2.1
          (grdShuffledLands candidates c r).2) := by
  have hlands : ∀ c2 ∈ grdLands candidates, c2 ∈ candidates :=
    fun c2 hc2 => (List.mem_filter.1 hc2).1
  have hnonlands : ∀ c2 ∈ grdNonLands candidates, c2 ∈ candidates :=
    fun c2 hc2 => (List.mem_filter.1 hc2).1
  obtain ⟨a1, a2, a3⟩ := seedMustInclude_land_inv candidates (validateConstraints c) huniq
    (grdNonLands candidates) (grdLands candidates) hnonlands hlands hbasic
    (validateConstraints c).mustInclude [] {} r
    (by simp) (by simp [alookup, deckLandTotal_nil]) (by simp [alookup])
  have a1f : ∀ e ∈ (grdSeed candidates c r).1, e.card ∈ candidates := a1
  have a2f : (alookup (grdSeed candidates c r).2.1.byCategory "land").getD 0 =
      deckLandTotal (grdSeed candidates c r).1 := a2
  have a3f : (alookup (grdSeed candidates c r).2.1.byCategory "land").getD 0 ≤
      (validateConstraints c).maxLands := a3
  obtain ⟨k1, k2, k3⟩ := addLands_land_inv candidates (validateConstraints c) huniq
    (grdTargetLands candidates c r) (grdShuffledLands candidates c r).1
    (fun cd hcd => hlands cd (mem_shuffle hcd))
    (fun cd hcd => hbasic cd (hlands cd (mem_shuffle hcd)))
    (grdSeed candidates c r).1 (grdSeed candidates c r).2.1
    (grdShuffledLands candidates c r).2 a1f a2f a3f
  have k1f : ∀ e ∈ (grdLandPhase candidates c r).1, e.card ∈ candidates := k1
  have k2f : (alookup (grdLandPhase candidates c r).2.1.byCategory "land").getD 0 =
      deckLandTotal (grdLandPhase candidates c r).1 := k2
  have k3f : (alookup (grdLandPhase candidates c r).2.1.byCategory "land").getD 0 ≤
      (validateConstraints c).maxLands := k3
  obtain ⟨j1, j2, _⟩ := addNonLands_land_inv candidates (validateConstraints c) huniq
    (shuffle (grdLandPhase candidates c r).2.2 (grdNonLands candidates)).1
    (fun cd hcd => hnonlands cd (mem_shuffle hcd))
    (fun cd hcd => of_decide_eq_true (List.mem_filter.1 (mem_shuffle hcd)).2)
    (grdLandPhase candidates c r).1 (grdLandPhase candidates c r).2.1
    (shuffle (grdLandPhase candidates c r).2.2 (grdNonLands candidates)).2 k1f k2f
  refine ⟨?_, fun cards deck st r2 target => addLands_noBreak _ target cards deck st r2, ?_⟩
  · show deckLandTotal (generateRandomDeck candidates c r).deck ≤ (validateConstraints c).maxLands
    rw [generateRandomDeck_deck_eq, ← j2, j1]
    exact k3f
  · intro h
    unfold grdLandPhase
    apply addLands_noBreak
    show (alookup (grdLandPhase candidates c r).2.1.byCategory "land").getD 0 <
      grdTargetLands candidates c r
    have hcons : (generateRandomDeck candidates c r).constraints = validateConstraints c := rfl
    rw [generateRandomDeck_deck_eq, hcons] at h
    rw [← j2, j1] at h
    have ht : grdTargetLands candidates c r
        = (validateConstraints c).minLands + (grdDraw candidates c r).1 := rfl
    rw [ht]
    omega


/-- Witness: `land_bound_amended` applied to a concrete pool (a basic
land plus an instant), constraints that seed a must-include name, and a
concrete random stream. -/
theorem land_bound_witness :
    deckLandTotal (generateRandomDeck [cardWastes, cardBolt] consSeed rng4).deck ≤
      (generateRandomDeck [cardWastes, cardBolt] consSeed rng4).constraints.maxLands :=
  (land_bound_amended [cardWastes, cardBolt] consSeed rng4
    (by decide) (by decide)).1


/-! ## C6: commander deck generation -/

theorem aset_keys (m : List (String × Card)) (k : String) (v : Card) :
    (aset m k v).map Prod.fst = if k ∈ m.map Prod.fst then m.map Prod.fst
      else m.map Prod.fst ++ [k] := by
  induction m with
  | nil => simp [aset]
  | cons p rest ih =>
    obtain ⟨k0, v0⟩ := p
    by_cases h : k0 = k
    · subst h
      simp [aset]
    · have hk : ¬ k = k0 := fun e => h e.symm
      simp only [aset, if_neg h, List.map_cons, ih]
      by_cases h2 : k ∈ rest.map Prod.fst <;> simp [h2, List.mem_cons, hk]

theorem aset_keys_nodup {m : List (String × Card)} {k : String} {v : Card}
    (h : (m.map Prod.fst).Nodup) : ((aset m k v).map Prod.fst).Nodup := by
  rw [aset_keys]
  by_cases h2 : k ∈ m.map Prod.fst
  · simpa [h2]
  · simp [h2, List.nodup_append, h]

theorem cards_foldl_aset (cards : List Card) :
    (buildIndex cards).cards = cards.foldl (fun m c => aset m c.id c) [] := by
  unfold buildIndex
  rw [foldl_indexCard_proj (fun i => i.cards) (fun m c => aset m c.id c) cards_indexCard]

theorem cards_keys_nodup (cards : List Card) :
    ((buildIndex cards).cards.map Prod.fst).Nodup := by
  rw [cards_foldl_aset]
  suffices h : ∀ (l : List Card) (m : List (String × Card)), (m.map Prod.fst).Nodup →
      ((l.foldl (fun m2 c => aset m2 c.id c) m).map Prod.fst).Nodup by
    exact h cards [] (by simp)
  intro l
  induction l with
  | nil => intro m hm; exact hm
  | cons c rest ih =>
    intro m hm
    exact ih _ (aset_keys_nodup hm)

theorem mem_aset_values {m : List (String × Card)} {k0 : String} {v0 : Card}
    {k : String} {v : Card} (h : (k, v) ∈ aset m k0 v0) :
    (k, v) ∈ m ∨ v = v0 := by
  induction m with
  | nil =>
    simp [aset] at h
    exact Or.inr h.2
  | cons p rest ih =>
    obtain ⟨k1, v1⟩ := p
    by_cases h1 : k1 = k0
    · subst h1
      simp only [aset, if_pos rfl] at h
      rcases List.mem_cons.1 h with h | h
      · exact Or.inr (by cases h; rfl)
      · exact Or.inl (List.mem_cons_of_mem _ h)
    · simp only [aset, if_neg h1] at h
      rcases List.mem_cons.1 h with h | h
      · exact Or.inl (h ▸ List.mem_cons_self _ _)
      · rcases ih h with h | h
        · exact Or.inl (List.mem_cons_of_mem _ h)
        · exact Or.inr h

theorem mem_cards_values {cards : List Card} {k : String} {v : Card}
    (h : (k, v) ∈ (buildIndex cards).cards) : v ∈ cards := by
  rw [cards_foldl_aset] at h
  suffices hs : ∀ (l : List Card) (m : List (String × Card)),
      (k, v) ∈ l.foldl (fun m2 c => aset m2 c.id c) m → (k, v) ∈ m ∨ v ∈ l by
    rcases hs cards [] h with h2 | h2
    · simp at h2
    · exact h2
  intro l
  induction l with
  | nil => intro m hm; exact Or.inl hm
  | cons c rest ih =>
    intro m hm
    rcases ih _ hm with h2 | h2
    · rcases mem_aset_values h2 with h3 | rfl
      · exact Or.inl h3
      · exact Or.inr (List.mem_cons_self _ _)
    · exact Or.inr (List.mem_cons_of_mem _ h2)

theorem alookup_mem {m : List (String × Card)} {k : String} {v : Card}
    (h : alookup m k = some v) : (k, v) ∈ m := by
  induction m with
  | nil => cases h
  | cons p rest ih =>
    obtain ⟨k0, v0⟩ := p
    by_cases h0 : k0 = k
    · subst h0
      rw [alookup, if_pos rfl] at h
      cases h
      exact List.mem_cons_self _ _
    · rw [alookup, if_neg h0] at h
      exact List.mem_cons_of_mem _ (ih h)

theorem alookup_of_mem_nodup {m : List (String × Card)} {k : String} {v : Card}
    (hn : (m.map Prod.fst).Nodup) (h : (k, v) ∈ m) : alookup m k = some v := by
  induction m with
  | nil => cases h
  | cons p rest ih =>
    obtain ⟨k0, v0⟩ := p
    rw [List.map_cons, List.nodup_cons] at hn
    rcases List.mem_cons.1 h with h | h
    · cases h
      rw [alookup, if_pos rfl]
    · have hk : k0 ≠ k := by
        intro e
        subst e
        exact hn.1 (List.mem_map.2 ⟨(k0, v), h, rfl⟩)
      rw [alookup, if_neg hk]
      exact ih hn.2 h

theorem seedMustInclude_from (cons : Constraints) (cands nonLands lands : List Card)
    (hnl : ∀ cd ∈ nonLands, cd ∈ cands) (hl : ∀ cd ∈ lands, cd ∈ cands) :
    ∀ (names : List String) (deck : List DeckEntry) (st : DeckState) (r : Rng),
      (∀ e ∈ deck, e.card ∈ cands) →
      ∀ e ∈ (seedMustInclude cons nonLands lands names deck st r).1, e.card ∈ cands := by
  intro names
  induction names with
  | nil => intro deck st r h; exact h
  | cons nm rest ih =>
    intro deck st r h
    simp only [seedMustInclude]
    cases hfind : (match nonLands.find? (fun c => lowerStr c.name = lowerStr nm) with
      | some c => some c
      | none => lands.find? (fun c => lowerStr c.name = lowerStr nm)) with
    | none =>
      simp only [hfind]
      exact ih deck st r h
    | some c =>
      have hc : c ∈ cands := by
        rcases hf2 : nonLands.find? (fun cd => lowerStr cd.name = lowerStr nm) with _ | c2
        · rw [hf2] at hfind
          exact hl c (List.mem_of_find?_eq_some hfind)
        · rw [hf2] at hfind
          cases hfind
          exact hnl c (List.mem_of_find?_eq_some hf2)
      simp only [hfind]
      by_cases hv : isCardValid c cons st
      · simp only [hv, if_true]
        exact ih _ _ _ (addCardToDeck_from h hc)
      · simp only [hv, if_false]
        exact ih deck st r h

theorem addLands_from (cons : Constraints) (cands : List Card) (targetLands : Nat) :
    ∀ (cards : List Card), (∀ cd ∈ cards, cd ∈ cands) →
    ∀ (deck : List DeckEntry) (st : DeckState) (r : Rng),
      (∀ e ∈ deck, e.card ∈ cands) →
      ∀ e ∈ (addLands cons targetLands cards deck st r).1, e.card ∈ cands := by
  intro cards
  induction cards with
  | nil => intro _ deck st r h; exact h
  | cons land rest ih =>
    intro hsrc deck st r h
    have hland : land ∈ cands := hsrc land (List.mem_cons_self land rest)
    have hrest : ∀ cd ∈ rest, cd ∈ cands := fun cd hc => hsrc cd (List.mem_cons_of_mem land hc)
    simp only [addLands]
    by_cases hb : landBreak st targetLands
    · simp only [hb, if_true]
      exact h
    · simp only [hb, if_false]
      by_cases hv : isCardValid land cons st
      · simp only [hv, if_true]
        exact ih hrest _ _ _ (addCardToDeck_from h hland)
      · simp only [hv, if_false]
        exact ih hrest deck st r h

theorem addNonLands_from (cons : Constraints) (cands : List Card) :
    ∀ (cards : List Card), (∀ cd ∈ cards, cd ∈ cands) →
    ∀ (deck : List DeckEntry) (st : DeckState) (r : Rng),
      (∀ e ∈ deck, e.card ∈ cands) →
      ∀ e ∈ (addNonLands cons cards deck st r).1, e.card ∈ cands := by
  intro cards
  induction cards with
  | nil => intro _ deck st r h; exact h
  | cons card rest ih =>
    intro hsrc deck st r h
    have hcard : card ∈ cands := hsrc card (List.mem_cons_self card rest)
    have hrest : ∀ cd ∈ rest, cd ∈ cands := fun cd hc => hsrc cd (List.mem_cons_of_mem card hc)
    simp only [addNonLands]
    by_cases hb : deckTotal deck ≥ cons.deckSize
    · simp only [hb, if_true]
      exact h
    · simp only [hb, if_false]
      by_cases hv : isCardValid card cons st
      · simp only [hv, if_true]
        exact ih hrest _ _ _ (addCardToDeck_from h hcard)
      · simp only [hv, if_false]
        exact ih hrest deck st r h

theorem generateRandomDeck_from (candidates : List Card) (c : ConstraintsInput) (r : Rng) :
    ∀ e ∈ (generateRandomDeck candidates c r).deck, e.card ∈ candidates := by
  have hlands : ∀ c2 ∈ candidates.filter (fun cd => categorizeCard cd = "land"), c2 ∈ candidates :=
    fun c2 hc2 => (List.mem_filter.1 hc2).1
  have hnonlands : ∀ c2 ∈ candidates.filter (fun cd => categorizeCard cd ≠ "land"), c2 ∈ candidates :=
    fun c2 hc2 => (List.mem_filter.1 hc2).1
  unfold generateRandomDeck
  apply addNonLands_from _ candidates _ (fun cd hcd => hnonlands cd (mem_shuffle hcd))
  apply addLands_from _ candidates _ _ (fun cd hcd => hlands cd (mem_shuffle hcd))
  apply seedMustInclude_from _ candidates _ _ hnonlands hlands
  simp


theorem search_commander_subset (cards : List Card) (ci : String) (hci : ¬ ci = "") (x : Card)
    (hx : x ∈ search (buildIndex cards)
      { format := some "commander", colorIdentity := some ci,
        colorIdentityOperator := some "<=" }) :
    x ∈ cards ∧ isSubsetB (cardColorSet x "colorIdentity") (targetColorSet ci) = true := by
  have hids : searchIds (buildIndex cards)
      { format := some "commander", colorIdentity := some ci,
        colorIdentityOperator := some "<=" } =
      (match getFieldIds (buildIndex cards) "format" (lowerStr "commander") with
       | some f => some (jsIntersect (searchColors (buildIndex cards) ci "<=" "colorIdentity") f)
       | none => some ([] : List String)) := by
    cases hf : getFieldIds (buildIndex cards) "format" (lowerStr "commander") with
    | none =>
      simp [searchIds, stepText, stepName, stepType, stepColors, stepColorIdentity, stepMana,
        stepPower, stepToughness, stepRarity, stepSet, stepFormat, stepKeyword, stepArtist,
        strOpt, hci, orDefault, hf]
    | some f =>
      simp [searchIds, stepText, stepName, stepType, stepColors, stepColorIdentity, stepMana,
        stepPower, stepToughness, stepRarity, stepSet, stepFormat, stepKeyword, stepArtist,
        strOpt, hci, orDefault, hf, combineIds]
  have hx2 : ∃ id, id ∈ searchColors (buildIndex cards) ci "<=" "colorIdentity" ∧
      alookup (buildIndex cards).cards id = some x := by
    simp only [search, hids] at hx
    cases hf : getFieldIds (buildIndex cards) "format" (lowerStr "commander") with
    | none =>
      rw [hf] at hx
      simp [strOpt] at hx
    | some f =>
      rw [hf] at hx
      simp only [Option.getD_some, strOpt] at hx
      obtain ⟨id, hid, hlook⟩ := List.mem_filterMap.1 hx
      exact ⟨id, (mem_jsIntersect.1 hid).1, hlook⟩
  obtain ⟨id, hidA, hlook⟩ := hx2
  obtain ⟨c0, hc0pair, hc0m⟩ := mem_searchColors.1 hidA
  have hl0 : alookup (buildIndex cards).cards id = some c0 :=
    alookup_of_mem_nodup (cards_keys_nodup cards) hc0pair
  rw [hlook] at hl0
  have hcx : c0 = x := Option.some.inj hl0.symm
  subst hcx
  refine ⟨mem_cards_values hc0pair, ?_⟩
  exact hc0m

theorem mem_cardColorSet_of {c : Card} {ch : Char} (h : ch ∈ c.color_identity) :
    ch.toLower ∈ cardColorSet c "colorIdentity" := by
  have hmem : ch.toLower ∈ jsSetOf (c.color_identity.map Char.toLower) :=
    mem_jsSetOf.2 (List.mem_map_of_mem _ h)
  have hne : ¬ (jsSetOf (c.color_identity.map Char.toLower)).length = 0 := by
    intro h0
    rw [List.length_eq_zero] at h0
    rw [h0] at hmem
    cases hmem
  have hgoal : cardColorSet c "colorIdentity" = jsSetOf (c.color_identity.map Char.toLower) := by
    simp [cardColorSet, hne]
  rw [hgoal]
  exact hmem

theorem mem_targetColorSet {ci : String} {x : Char} (h : x ∈ targetColorSet ci) :
    x ∈ ci.toList.map Char.toLower := by
  unfold targetColorSet at h
  rw [mem_jsSetOf] at h
  have h2 := (List.mem_filter.1 h).1
  have : (lowerStr ci).toList = ci.toList.map Char.toLower := rfl
  rwa [this] at h2

/-- C6: every deck returned by `generateCommanderDeck` over a corpus
whose color identities use only the five color letters contains no card
whose color identity (compared case-insensitively) is not a subset of
the commander's own color identity; no sampled entry (everything after
the head) shares the commander's oracle id; and the commander is
prepended as the first entry.  In particular, a card outside a 2-color
commander's identity never appears in the generated deck. -/
theorem commander_deck_law (cards : List Card) (commander : Card) (extra : ConstraintsInput)
    (r : Rng)
    (hQ : ∀ cd ∈ cards, ∀ ch ∈ cd.color_identity,
      ch.toLower ∈ (['w', 'u', 'b', 'r', 'g'] : List Char))
    (hQc : ∀ ch ∈ commander.color_identity,
      ch.toLower ∈ (['w', 'u', 'b', 'r', 'g'] : List Char)) :
    (∀ e ∈ (generateCommanderDeck (buildIndex cards) commander extra r).deck,
      ∀ ch ∈ e.card.color_identity,
        ch.toLower ∈ commander.color_identity.map Char.toLower)
  ∧ (∀ e ∈ (generateCommanderDeck (buildIndex cards) commander extra r).deck.tail,
      e.card.oracle_id ≠ commander.oracle_id)
  ∧ (generateCommanderDeck (buildIndex cards) commander extra r).deck.head? =
      some { card := commander, count := 1, isCommander := true } := by
  have hdeck : (generateCommanderDeck (buildIndex cards) commander extra r).deck =
      ({ card := commander, count := 1, isCommander := true } : DeckEntry) ::
      (generateRandomDeck (commanderPool (buildIndex cards) commander)
        (commanderCons extra commander) r).deck := rfl
  have hci : ¬ commanderCI commander = "" := by
    unfold commanderCI
    by_cases hemp : String.mk commander.color_identity = "" <;> simp [hemp]
  have hsampled : ∀ e ∈ (generateCommanderDeck (buildIndex cards) commander extra r).deck.tail,
      e.card ∈ cards ∧
      isSubsetB (cardColorSet e.card "colorIdentity")
        (targetColorSet (commanderCI commander)) = true ∧
      e.card.oracle_id ≠ commander.oracle_id := by
    intro e he
    rw [hdeck] at he
    simp only [List.tail_cons] at he
    have hc := generateRandomDeck_from _ _ _ e he
    have hfilter := List.mem_filter.1 hc
    have hsub := search_commander_subset cards _ hci e.card hfilter.1
    exact ⟨hsub.1, hsub.2, of_decide_eq_true hfilter.2⟩
  refine ⟨?_, fun e he => (hsampled e he).2.2, by rw [hdeck]; rfl⟩
  intro e he ch hch
  rw [hdeck] at he
  rcases List.mem_cons.1 he with rfl | he
  · exact List.mem_map_of_mem Char.toLower hch
  · have h3 := hsampled e (by rw [hdeck]; simpa using he)
    have hsubset := (isSubsetB_iff _ _).1 h3.2.1
    have hin : ch.toLower ∈ (targetColorSet (commanderCI commander)).toFinset :=
      hsubset (List.mem_toFinset.2 (mem_cardColorSet_of hch))
    have hin2 := mem_targetColorSet (List.mem_toFinset.1 hin)
    unfold commanderCI at hin2
    by_cases hemp : String.mk commander.color_identity = ""
    · exfalso
      rw [if_pos hemp] at hin2
      simp at hin2
      have hQe := hQ e.card h3.1 ch hch
      rw [hin2] at hQe
      simp at hQe
    · rw [if_neg hemp] at hin2
      have he2 : (String.mk commander.color_identity).toList = commander.color_identity := rfl
      rwa [he2] at hin2


/-- Witness: `commander_deck_law` applied to a concrete corpus holding a
WU commander, one in-identity card and one out-of-identity card. -/
theorem commander_deck_witness :
    (generateCommanderDeck (buildIndex [cardCmd, cardInId, cardOutId]) cardCmd {} rng4).deck.head? =
      some { card := cardCmd, count := 1, isCommander := true } :=
  (commander_deck_law [cardCmd, cardInId, cardOutId] cardCmd {} rng4
    (by decide) (by decide)).2.2

/-! ## C8: the text-export round trip -/

theorem digitChar_isDigit {d : Nat} (h : d < 10) : (digitChar d).isDigit = true := by
  interval_cases d <;> decide

theorem digitVal_digitChar {d : Nat} (h : d < 10) : digitVal (digitChar d) = d := by
  interval_cases d <;> decide

theorem digit_ne_nl {c : Char} (h : c.isDigit = true) : c ≠ '\n' := by
  intro he
  subst he
  exact absurd h (by decide)

theorem natDigitsAux_ne_nil {fuel n : Nat} (h : n < fuel) : natDigitsAux fuel n ≠ [] := by
  match fuel with
  | 0 => exact absurd h (Nat.not_lt_zero n)
  | fuel + 1 =>
    by_cases h10 : n < 10
    · simp [natDigitsAux, h10]
    · simp [natDigitsAux, h10]

theorem natDigitsAux_digits {fuel : Nat} : ∀ {n : Nat}, n < fuel →
    ∀ c ∈ natDigitsAux fuel n, c.isDigit = true := by
  induction fuel with
  | zero => intro n h; exact absurd h (Nat.not_lt_zero n)
  | succ fuel ih =>
    intro n h c hc
    by_cases h10 : n < 10
    · simp [natDigitsAux, h10] at hc
      subst hc
      exact digitChar_isDigit h10
    · simp only [natDigitsAux, if_neg h10, List.mem_append] at hc
      rcases hc with hc | hc
      · have hlt : n / 10 < fuel := by
          have h1 : n / 10 < n := Nat.div_lt_self (by omega) (by omega)
          omega
        exact ih hlt c hc
      · simp at hc
        subst hc
        exact digitChar_isDigit (Nat.mod_lt n (by omega))

/-- Rendering a count and folding the decimal digits back recovers the
count. -/
theorem natDigitsAux_val {fuel : Nat} : ∀ {n : Nat}, n < fuel →
    (natDigitsAux fuel n).foldl (fun a c => a * 10 + digitVal c) 0 = n := by
  induction fuel with
  | zero => intro n h; exact absurd h (Nat.not_lt_zero n)
  | succ fuel ih =>
    intro n h
    by_cases h10 : n < 10
    · simp [natDigitsAux, h10, digitVal_digitChar h10]
    · rw [natDigitsAux, if_neg h10, List.foldl_append]
      have hlt : n / 10 < fuel := by
        have h1 : n / 10 < n := Nat.div_lt_self (by omega) (by omega)
        omega
      rw [ih hlt]
      simp [digitVal_digitChar (Nat.mod_lt n (by omega))]
      omega

theorem natDigits_ne_nil (n : Nat) : natDigits n ≠ [] :=
  natDigitsAux_ne_nil (Nat.lt_succ_self n)

theorem natDigits_digits (n : Nat) : ∀ c ∈ natDigits n, c.isDigit = true :=
  natDigitsAux_digits (Nat.lt_succ_self n)

theorem natDigits_val (n : Nat) :
    (natDigits n).foldl (fun a c => a * 10 + digitVal c) 0 = n :=
  natDigitsAux_val (Nat.lt_succ_self n)

theorem takeWhile_all_append {p : Char → Bool} :
    ∀ (xs : List Char), (∀ c ∈ xs, p c = true) → ∀ (y : Char) (ys : List Char), p y = false →
      (xs ++ y :: ys).takeWhile p = xs ∧ (xs ++ y :: ys).dropWhile p = y :: ys := by
  intro xs hxs y ys hy
  induction xs with
  | nil => simp [List.takeWhile_cons, List.dropWhile_cons, hy]
  | cons x rest ih =>
    have hx : p x = true := hxs x (List.mem_cons_self x rest)
    have hrest : ∀ c ∈ rest, p c = true := fun c hc => hxs c (List.mem_cons_of_mem x hc)
    have hr := ih hrest
    simp [List.takeWhile_cons, List.dropWhile_cons, hx, hr.1, hr.2]

theorem entryLine_toList (e : DeckEntry) :
    (entryLine e).toList = natDigits e.count ++ 'x' :: ' ' :: e.card.name.toList := by
  show (natDigits e.count ++ ('x' :: ' ' :: [])) ++ e.card.name.toList = _
  simp

/-- Parsing an entry line recovers exactly the entry name and count. -/
theorem parseEntryLine_entryLine (e : DeckEntry) :
    parseEntryLine (entryLine e) = some (e.card.name, e.count) := by
  unfold parseEntryLine
  rw [entryLine_toList]
  dsimp only
  have h := takeWhile_all_append (natDigits e.count) (natDigits_digits e.count)
    'x' (' ' :: e.card.name.toList) (by decide)
  rw [h.1, h.2, if_neg (natDigits_ne_nil e.count)]
  simp [natDigits_val]

/-- Category header lines never parse as entry lines. -/
theorem parseEntryLine_header (cat : String) : parseEntryLine (categoryHeader cat) = none := by
  unfold categoryHeader
  cases h : cat.toList with
  | nil => decide
  | cons c rest =>
    unfold parseEntryLine
    show (if (("// ".toList ++ (c.toUpper :: rest)) ++ "s".toList).takeWhile Char.isDigit = [] then none else _) = none
    rw [if_pos ?_]
    show ((  '/' :: '/' :: ' ' :: (c.toUpper :: rest ++ "s".toList)).takeWhile Char.isDigit) = []
    simp [List.takeWhile_cons]

theorem parseEntryLine_blank : parseEntryLine "" = none := by decide

theorem splitLinesAux_append {cs : List Char} :
    ∀ (cur rest : List Char), (∀ c ∈ cs, c ≠ '\n') →
      splitLinesAux (cs ++ rest) cur = splitLinesAux rest (cs.reverse ++ cur) := by
  induction cs with
  | nil => intro cur rest _; simp
  | cons c cs ih =>
    intro cur rest h
    have hc : c ≠ '\n' := h c (List.mem_cons_self c cs)
    have hcs : ∀ x ∈ cs, x ≠ '\n' := fun x hx => h x (List.mem_cons_of_mem c hx)
    rw [List.cons_append, splitLinesAux, if_neg hc, ih (c :: cur) rest hcs]
    simp

theorem mk_toList (s : String) : String.mk s.toList = s := rfl

theorem toList_append (a b : String) : (a ++ b).toList = a.toList ++ b.toList := rfl

theorem joinLines_cons (l l2 : String) (rest : List String) :
    joinLines (l :: l2 :: rest) = l ++ "\n" ++ joinLines (l2 :: rest) := rfl

/-- Splitting a newline join of newline-free lines recovers the lines. -/
theorem splitLines_joinLines :
    ∀ (lines : List String), (∀ l ∈ lines, ∀ c ∈ l.toList, c ≠ '\n') → lines ≠ [] →
      splitLines (joinLines lines) = lines := by
  intro lines
  induction lines with
  | nil => intro _ h; exact absurd rfl h
  | cons l rest ih =>
    intro h _
    have hl : ∀ c ∈ l.toList, c ≠ '\n' := h l (List.mem_cons_self l rest)
    have hrest : ∀ l2 ∈ rest, ∀ c ∈ l2.toList, c ≠ '\n' :=
      fun l2 h2 => h l2 (List.mem_cons_of_mem l h2)
    cases rest with
    | nil =>
      show splitLinesAux l.toList [] = [l]
      have h0 : splitLinesAux (l.toList ++ []) [] = splitLinesAux [] (l.toList.reverse ++ []) :=
        splitLinesAux_append [] [] hl
      simp only [List.append_nil] at h0
      rw [h0, splitLinesAux, List.reverse_reverse, mk_toList]
    | cons l2 rest2 =>
      show splitLinesAux (joinLines (l :: l2 :: rest2)).toList [] = l :: l2 :: rest2
      have hjoin : (joinLines (l :: l2 :: rest2)).toList
          = l.toList ++ '\n' :: (joinLines (l2 :: rest2)).toList := by
        rw [joinLines_cons, toList_append, toList_append]
        simp
      rw [hjoin, splitLinesAux_append [] _ hl]
      rw [splitLinesAux, if_pos rfl]
      simp only [List.append_nil, List.reverse_reverse, mk_toList]
      have h2 := ih hrest (by simp)
      unfold splitLines at h2
      rw [h2]

theorem exportLines_foldl (groups : List (String × List DeckEntry)) :
    ∀ init : List String,
      groups.foldl (fun lines p => lines ++ [categoryHeader p.1] ++ p.2.map entryLine ++ [""]) init
        = init ++ (groups.map (fun p => categoryHeader p.1 :: (p.2.map entryLine ++ [""]))).flatten := by
  induction groups with
  | nil => intro init; simp
  | cons p ps ih =>
    intro init
    rw [List.foldl_cons, ih]
    simp [List.append_assoc]

/-- The export lines are the per-category blocks laid end to end. -/
theorem exportLines_eq (deck : List DeckEntry) :
    exportLines deck
      = ((groupByCategory deck).map
          (fun p => categoryHeader p.1 :: (p.2.map entryLine ++ [""]))).flatten := by
  rw [exportLines, exportLines_foldl]
  simp

/-- Parsing one category block keeps exactly its entry lines. -/
theorem block_filterMap (cat : String) (es : List DeckEntry) :
    (categoryHeader cat :: (es.map entryLine ++ [""])).filterMap parseEntryLine
      = es.map (fun e => (e.card.name, e.count)) := by
  rw [List.filterMap_cons]
  rw [parseEntryLine_header]
  rw [List.filterMap_append]
  simp [List.filterMap_map, Function.comp, parseEntryLine_entryLine, parseEntryLine_blank,
    List.filterMap_eq_map_iff_forall_eq_some]

theorem mem_aset_or {α : Type} :
    ∀ (m : List (String × α)) (k : String) (v : α) (q : String × α),
      q ∈ aset m k v → q ∈ m ∨ q = (k, v) := by
  intro m k v
  induction m with
  | nil => intro q hq; simp [aset] at hq; exact Or.inr hq
  | cons p rest ih =>
    intro q hq
    obtain ⟨k0, v0⟩ := p
    by_cases h0 : k0 = k
    · rw [aset, if_pos h0] at hq
      rcases List.mem_cons.1 hq with hq | hq
      · subst h0; exact Or.inr hq
      · exact Or.inl (List.mem_cons_of_mem _ hq)
    · rw [aset, if_neg h0] at hq
      rcases List.mem_cons.1 hq with hq | hq
      · exact Or.inl (hq ▸ List.mem_cons_self _ _)
      · rcases ih q hq with h2 | h2
        · exact Or.inl (List.mem_cons_of_mem _ h2)
        · exact Or.inr h2

theorem alookup_mem_of {α : Type} :
    ∀ {m : List (String × α)} {k : String} {v : α}, alookup m k = some v → (k, v) ∈ m := by
  intro m
  induction m with
  | nil => intro k v h; cases h
  | cons p rest ih =>
    intro k v h
    obtain ⟨k0, v0⟩ := p
    by_cases h0 : k0 = k
    · subst h0
      rw [alookup, if_pos rfl] at h
      cases h
      exact List.mem_cons_self _ _
    · rw [alookup, if_neg h0] at h
      exact List.mem_cons_of_mem _ (ih h)

theorem pushCategory_pred (P : String → Prop) (Q : DeckEntry → Prop)
    (acc : List (String × List DeckEntry)) (cat : String) (e : DeckEntry)
    (hacc : ∀ p ∈ acc, P p.1 ∧ ∀ x ∈ p.2, Q x) (hcat : P cat) (he : Q e) :
    ∀ q ∈ pushCategory acc cat e, P q.1 ∧ ∀ x ∈ q.2, Q x := by
  intro q hq
  unfold pushCategory at hq
  cases hlk : alookup acc cat with
  | none =>
    rw [hlk] at hq
    rcases List.mem_append.1 hq with hq | hq
    · exact hacc q hq
    · simp at hq
      subst hq
      refine ⟨hcat, ?_⟩
      intro x hx
      simp at hx
      subst hx
      exact he
  | some es =>
    rw [hlk] at hq
    rcases mem_aset_or _ _ _ q hq with hq | hq
    · exact hacc q hq
    · subst hq
      refine ⟨hcat, ?_⟩
      intro x hx
      rcases List.mem_append.1 hx with hx | hx
      · exact (hacc (cat, es) (alookup_mem_of hlk)).2 x hx
      · simp at hx
        subst hx
        exact he

/-- Every group of `groupByCategory` is keyed by one of the nine category
names and holds only deck entries. -/
theorem groupByCategory_pred (Q : DeckEntry → Prop) (deck : List DeckEntry)
    (hdeck : ∀ e ∈ deck, Q e) :
    ∀ p ∈ groupByCategory deck,
      (p.1 ∈ ["land", "creature", "planeswalker", "instant", "sorcery",
        "enchantment", "artifact", "battle", "other"]) ∧ ∀ x ∈ p.2, Q x := by
  suffices hgen : ∀ (l : List DeckEntry) (acc : List (String × List DeckEntry)),
      (∀ e ∈ l, Q e) →
      (∀ p ∈ acc, (p.1 ∈ ["land", "creature", "planeswalker", "instant", "sorcery",
        "enchantment", "artifact", "battle", "other"]) ∧ ∀ x ∈ p.2, Q x) →
      ∀ p ∈ l.foldl (fun acc e => pushCategory acc (categorizeCard e.card) e) acc,
        (p.1 ∈ ["land", "creature", "planeswalker", "instant", "sorcery",
          "enchantment", "artifact", "battle", "other"]) ∧ ∀ x ∈ p.2, Q x by
    exact hgen deck [] hdeck (by simp)
  intro l
  induction l with
  | nil => intro acc _ hacc p hp; exact hacc p hp
  | cons e rest ih =>
    intro acc hl hacc p hp
    rw [List.foldl_cons] at hp
    refine ih _ (fun x hx => hl x (List.mem_cons_of_mem e hx)) ?_ p hp
    refine pushCategory_pred _ Q acc (categorizeCard e.card) e hacc ?_
      (hl e (List.mem_cons_self e rest))
    unfold categorizeCard
    dsimp only
    split_ifs <;> simp

theorem aset_flatten_perm :
    ∀ (m : List (String × List DeckEntry)) (cat : String) (es : List DeckEntry) (e : DeckEntry),
      alookup m cat = some es →
      (((aset m cat (es ++ [e])).map Prod.snd).flatten).Perm
        (((m.map Prod.snd).flatten) ++ [e]) := by
  intro m cat es e
  induction m with
  | nil => intro h; cases h
  | cons p rest ih =>
    intro h
    obtain ⟨k0, v0⟩ := p
    by_cases h0 : k0 = cat
    · rw [alookup, if_pos h0] at h
      injection h with h
      subst h
      rw [aset, if_pos h0]
      simp only [List.map_cons, List.flatten_cons]
      have h1 : ((v0 ++ [e]) ++ ((rest.map Prod.snd).flatten) : List DeckEntry)
          = v0 ++ ([e] ++ (rest.map Prod.snd).flatten) := List.append_assoc _ _ _
      have h2 : (v0 ++ ([e] ++ (rest.map Prod.snd).flatten) : List DeckEntry).Perm
          (v0 ++ ((rest.map Prod.snd).flatten ++ [e])) :=
        (List.perm_append_comm).append_left v0
      have h3 : (v0 ++ ((rest.map Prod.snd).flatten ++ [e]) : List DeckEntry)
          = (v0 ++ (rest.map Prod.snd).flatten) ++ [e] := (List.append_assoc _ _ _).symm
      rw [h1, ← h3]
      exact h2
    · rw [alookup, if_neg h0] at h
      rw [aset, if_neg h0]
      simp only [List.map_cons, List.flatten_cons]
      have h2 : (v0 ++ ((aset rest cat (es ++ [e])).map Prod.snd).flatten : List DeckEntry).Perm
          (v0 ++ ((rest.map Prod.snd).flatten ++ [e])) := (ih h).append_left v0
      have h3 : (v0 ++ ((rest.map Prod.snd).flatten ++ [e]) : List DeckEntry)
          = (v0 ++ (rest.map Prod.snd).flatten) ++ [e] := (List.append_assoc _ _ _).symm
      rw [← h3]
      exact h2

theorem pushCategory_flatten_perm (acc : List (String × List DeckEntry))
    (cat : String) (e : DeckEntry) :
    (((pushCategory acc cat e).map Prod.snd).flatten).Perm
      ((acc.map Prod.snd).flatten ++ [e]) := by
  unfold pushCategory
  cases hlk : alookup acc cat with
  | none => simp
  | some es => exact aset_flatten_perm acc cat es e hlk

/-- The grouped entries are a permutation of the deck. -/
theorem groupByCategory_flatten_perm (deck : List DeckEntry) :
    (((groupByCategory deck).map Prod.snd).flatten).Perm deck := by
  suffices hgen : ∀ (l : List DeckEntry) (acc : List (String × List DeckEntry)),
      ((((l.foldl (fun acc e => pushCategory acc (categorizeCard e.card) e) acc).map
        Prod.snd).flatten)).Perm ((acc.map Prod.snd).flatten ++ l) by
    have h := hgen deck []
    simpa using h
  intro l
  induction l with
  | nil => intro acc; simp
  | cons e rest ih =>
    intro acc
    rw [List.foldl_cons]
    have h1 := ih (pushCategory acc (categorizeCard e.card) e)
    have h2 : (((pushCategory acc (categorizeCard e.card) e).map Prod.snd).flatten
        ++ rest).Perm (((acc.map Prod.snd).flatten ++ [e]) ++ rest) :=
      (pushCategory_flatten_perm acc _ e).append_right rest
    have h3 : (((acc.map Prod.snd).flatten ++ [e]) ++ rest : List DeckEntry)
        = (acc.map Prod.snd).flatten ++ (e :: rest) := by simp
    exact (h1.trans h2).trans (by rw [h3])

theorem categoryHeader_no_nl {cat : String}
    (h : cat ∈ ["land", "creature", "planeswalker", "instant", "sorcery",
      "enchantment", "artifact", "battle", "other"]) :
    ∀ c ∈ (categoryHeader cat).toList, c ≠ '\n' := by
  simp only [List.mem_cons, List.not_mem_nil, or_false] at h
  rcases h with rfl | rfl | rfl | rfl | rfl | rfl | rfl | rfl | rfl <;> decide

theorem entryLine_no_nl {e : DeckEntry} (h : ∀ c ∈ e.card.name.toList, c ≠ '\n') :
    ∀ c ∈ (entryLine e).toList, c ≠ '\n' := by
  rw [entryLine_toList]
  intro c hc
  rcases List.mem_append.1 hc with hc | hc
  · exact digit_ne_nl (natDigits_digits e.count c hc)
  · rcases List.mem_cons.1 hc with rfl | hc
    · decide
    · rcases List.mem_cons.1 hc with rfl | hc
      · decide
      · exact h c hc

/-- When no card name embeds a newline, no export line does either. -/
theorem exportLines_no_nl (deck : List DeckEntry)
    (h : ∀ e ∈ deck, ∀ c ∈ e.card.name.toList, c ≠ '\n') :
    ∀ l ∈ exportLines deck, ∀ c ∈ l.toList, c ≠ '\n' := by
  intro l hl
  rw [exportLines_eq] at hl
  rcases List.mem_flatten.1 hl with ⟨block, hb, hlb⟩
  rcases List.mem_map.1 hb with ⟨p, hp, rfl⟩
  have hpred := groupByCategory_pred (fun e => ∀ c ∈ e.card.name.toList, c ≠ '\n') deck h p hp
  rcases List.mem_cons.1 hlb with rfl | hlb
  · exact categoryHeader_no_nl hpred.1
  · rcases List.mem_append.1 hlb with hlb | hlb
    · rcases List.mem_map.1 hlb with ⟨e, he, rfl⟩
      exact entryLine_no_nl (hpred.2 e he)
    · simp at hlb
      subst hlb
      intro c hc
      simp at hc

theorem exportLines_ne_nil {deck : List DeckEntry} (h : deck ≠ []) :
    exportLines deck ≠ [] := by
  intro hnil
  rw [exportLines_eq] at hnil
  have hgroups : groupByCategory deck = [] := by
    cases hg : groupByCategory deck with
    | nil => rfl
    | cons p ps =>
      rw [hg] at hnil
      simp at hnil
  have hperm := groupByCategory_flatten_perm deck
  rw [hgroups] at hperm
  simp at hperm
  exact h hperm

/-- C8 (counterexample): for the one-entry deck whose card name embeds a
newline followed by `2x b`, parsing the text export yields the two pairs
`(a, 1)` and `(b, 2)`, which is not a permutation of the single-pair
multiset of the source deck — the round trip fails as stated. -/
theorem export_roundtrip_counterexample :
    ¬ (parseTextExport (exportToText deckNl)).Perm
      (deckNl.map (fun e => (e.card.name, e.count))) := by
  intro hp
  exact absurd hp.length_eq (by decide)

/-- C8 (amended): for every deck none of whose card names embeds a
newline character, parsing the `<count>x <name>` lines of the text export
(headers and blank lines skipped) recovers exactly the (name, count)
multiset of the deck entries. -/
theorem export_roundtrip_amended (deck : List DeckEntry)
    (h : ∀ e ∈ deck, ∀ c ∈ e.card.name.toList, c ≠ '\n') :
    (parseTextExport (exportToText deck)).Perm
      (deck.map (fun e => (e.card.name, e.count))) := by
  by_cases hd : deck = []
  · subst hd
    have h0 : parseTextExport (exportToText []) = [] := rfl
    rw [h0]
    exact List.Perm.refl _
  · unfold parseTextExport exportToText
    rw [splitLines_joinLines _ (exportLines_no_nl deck h) (exportLines_ne_nil hd)]
    rw [exportLines_eq]
    rw [List.filterMap_flatten, List.map_map]
    have hblocks : ((groupByCategory deck).map
        ((fun l : List String => l.filterMap parseEntryLine)
          ∘ (fun p : String × List DeckEntry => categoryHeader p.1 :: (p.2.map entryLine ++ [""]))))
        = (groupByCategory deck).map
            (fun p => p.2.map (fun e => (e.card.name, e.count))) := by
      apply List.map_congr_left
      intro p _
      exact block_filterMap p.1 p.2
    rw [hblocks]
    have hcomm : (((groupByCategory deck).map Prod.snd).flatten).map
          (fun e => (e.card.name, e.count))
        = ((groupByCategory deck).map
            (fun p => p.2.map (fun e => (e.card.name, e.count)))).flatten := by
      rw [List.map_flatten, List.map_map]
      rfl
    rw [← hcomm]
    exact (groupByCategory_flatten_perm deck).map _

/-- Witness: the round trip at a concrete two-category deck with a
two-digit count. -/
theorem export_roundtrip_witness :
    (parseTextExport (exportToText deckRt)).Perm
      (deckRt.map (fun e => (e.card.name, e.count))) :=
  export_roundtrip_amended deckRt (by decide)

end SQG
